import Mathlib

/-!
Verification of the `tool` command-line utility (download_dataset.py,
export_videos.py, generate_video.py, run.py).  Python strings are embedded
as `List Char`, JSON documents as the inductive `JValue`, and each Python
function that a claim mentions is translated into an executable Lean
definition over those types.  Subprocess and filesystem effects are
represented explicitly: the gsutil exit code for a source path is an
oracle function, and the calls, renames and file writes a run performs are
collected in the result structure.
-/

set_option maxHeartbeats 1000000

/-- Python strings are modelled as lists of characters. -/
abbrev PyStr := List Char

namespace Tool

/-- The character `{`, written via its code point. -/
def lbrace : Char := Char.ofNat 123

/-- The character `}`, written via its code point. -/
def rbrace : Char := Char.ofNat 125

/-- Value of a decimal digit character. -/
def digitVal (c : Char) : Nat := c.toNat - 48

/-- Helper for `pyIntDigits?`: consume decimal digits, allowing a single
underscore between two digits (Python `int` literal rule). -/
def pyDigitsGo : List Char → Nat → Option Nat
  | [], acc => some acc
  | c :: rest, acc =>
    if c.isDigit then pyDigitsGo rest (acc * 10 + digitVal c)
    else if c = '_' then
      match rest with
      | [] => none
      | r :: rest2 =>
        if r.isDigit then pyDigitsGo rest2 (acc * 10 + digitVal r) else none
    else none

/-- Parse an unsigned run of digits the way Python `int` does: at least one
digit, optional single underscores strictly between digits. -/
def pyIntDigits? (s : List Char) : Option Nat :=
  match s with
  | [] => none
  | c :: _ => if c.isDigit then pyDigitsGo s 0 else none

/-- Model of Python `int(s)` on a string: strip surrounding whitespace,
allow one optional sign, then digits (with underscore separators).
Returns `none` where Python raises `ValueError`. -/
def pyIntParse? (s : PyStr) : Option Int :=
  let t := (s.dropWhile Char.isWhitespace).reverse.dropWhile Char.isWhitespace |>.reverse
  match t with
  | '+' :: rest => (pyIntDigits? rest).map (fun n => (n : Int))
  | '-' :: rest => (pyIntDigits? rest).map (fun n => -(n : Int))
  | rest => (pyIntDigits? rest).map (fun n => (n : Int))

/-- Decimal digit character of a value below ten. -/
def digitChar (d : Nat) : Char := Char.ofNat (48 + d)

/-- Little-endian decimal digits of a natural number, with a structural
fuel argument so the kernel can evaluate the definition; `fuel > n`
always suffices because the value shrinks strictly at each step. -/
def natDigitsRevFuel : Nat → Nat → List Char
  | 0, _ => []
  | fuel + 1, n =>
    if n < 10 then [digitChar n] else digitChar (n % 10) :: natDigitsRevFuel fuel (n / 10)

/-- Little-endian decimal digits of a natural number. -/
def natDigitsRev (n : Nat) : List Char := natDigitsRevFuel (n + 1) n

/-- Decimal rendering of a natural number, most significant digit first. -/
def natDigits (n : Nat) : List Char := (natDigitsRev n).reverse

/-- Model of Python `f"{n:05d}"` for a non-negative value: the decimal
digits left-padded with zeros to width five. -/
def pad5 (n : Nat) : PyStr :=
  List.replicate (5 - (natDigits n).length) '0' ++ natDigits n

/-- Value of a little-endian digit list. -/
def digitsRevVal : List Char → Nat
  | [] => 0
  | c :: rest => digitVal c + 10 * digitsRevVal rest

theorem digitVal_digitChar {d : Nat} (h : d < 10) : digitVal (digitChar d) = d := by
  interval_cases d <;> decide

theorem digitsRevVal_natDigitsRevFuel (fuel : Nat) :
    ∀ n < fuel, digitsRevVal (natDigitsRevFuel fuel n) = n := by
  induction fuel with
  | zero => omega
  | succ fuel ih =>
    intro n hn
    rw [natDigitsRevFuel]
    by_cases h : n < 10
    · simp only [h, if_pos]
      simp [digitsRevVal, digitVal_digitChar h]
    · simp only [h, if_neg]
      have hdiv : n / 10 < fuel := by
        have := Nat.div_lt_self (show 0 < n by omega) (show 1 < 10 by omega)
        omega
      simp only [digitsRevVal, ih (n / 10) hdiv,
        digitVal_digitChar (Nat.mod_lt n (by omega))]
      omega

theorem digitsRevVal_natDigitsRev (n : Nat) : digitsRevVal (natDigitsRev n) = n :=
  digitsRevVal_natDigitsRevFuel (n + 1) n (by omega)

/-- Big-endian digit-list value. -/
def digitsVal (s : List Char) : Nat := s.foldl (fun acc c => acc * 10 + digitVal c) 0

theorem digitsVal_eq_foldr (s : List Char) :
    digitsVal s = digitsRevVal s.reverse := by
  induction s using List.reverseRecOn with
  | nil => rfl
  | append_singleton xs x ih =>
    simp [digitsVal, digitsRevVal, List.foldl_append] at *
    simp [ih, Nat.add_comm, Nat.mul_comm]

theorem digitsVal_natDigits (n : Nat) : digitsVal (natDigits n) = n := by
  rw [digitsVal_eq_foldr, natDigits, List.reverse_reverse, digitsRevVal_natDigitsRev]

theorem digitsVal_cons_zero (s : List Char) : digitsVal ('0' :: s) = digitsVal s := by
  have h0 : digitVal '0' = 0 := by decide
  simp [digitsVal, h0]

theorem digitsVal_replicate_zero_append (k : Nat) (s : List Char) :
    digitsVal (List.replicate k '0' ++ s) = digitsVal s := by
  induction k with
  | zero => simp
  | succ k ih =>
    simp only [List.replicate_succ, List.cons_append, digitsVal_cons_zero, ih]

theorem digitsVal_pad5 (n : Nat) : digitsVal (pad5 n) = n := by
  rw [pad5, digitsVal_replicate_zero_append, digitsVal_natDigits]

/-- Zero padding to width five is injective. -/
theorem pad5_injective : Function.Injective pad5 := by
  intro a b h
  have := digitsVal_pad5 a
  rw [h, digitsVal_pad5] at this
  omega

/-- JSON documents as loaded by Python `json.load`.  Numbers of the
documents in question are integers. -/
inductive JValue where
  | null : JValue
  | bool : Bool → JValue
  | num : Int → JValue
  | str : PyStr → JValue
  | arr : List JValue → JValue
  | obj : List (PyStr × JValue) → JValue

/-- Python truthiness of a JSON value (`if not x`). -/
def pyTruthy : JValue → Bool
  | .null => false
  | .bool b => b
  | .num n => n ≠ 0
  | .str s => !s.isEmpty
  | .arr l => !l.isEmpty
  | .obj f => !f.isEmpty

/-- Lookup of a key in the field list of a JSON object. -/
def jLookup : List (PyStr × JValue) → PyStr → Option JValue
  | [], _ => none
  | (k, v) :: rest, key => if k = key then some v else jLookup rest key

/-- Model of Python `d.get(key, default)`: `none` when the receiver is not
a dict (Python raises `AttributeError` there). -/
def jGetD? (v : JValue) (key : PyStr) (dflt : JValue) : Option JValue :=
  match v with
  | .obj fields => some ((jLookup fields key).getD dflt)
  | _ => none

/-- Model of Python dict assignment `d[key] = v`: replace the value at an
existing key in place, append the binding otherwise. -/
def jSetKey : List (PyStr × JValue) → PyStr → JValue → List (PyStr × JValue)
  | [], key, v => [(key, v)]
  | (k, w) :: rest, key, v =>
    if k = key then (k, v) :: rest else (k, w) :: jSetKey rest key v

/-- Model of Python iteration `for x in v`: a list iterates its elements, a
string its one-character substrings, a dict its keys; other values raise
`TypeError` (`none`). -/
def jIter? : JValue → Option (List JValue)
  | .arr l => some l
  | .str s => some (s.map (fun c => .str [c]))
  | .obj fields => some (fields.map (fun kv => JValue.str kv.1))
  | _ => none

/-- Model of Python `int(x)` on a JSON value: strings are parsed, numbers
kept, booleans mapped to zero or one; other values raise (`none`). -/
def jToInt? : JValue → Option Int
  | .str s => pyIntParse? s
  | .num n => some n
  | .bool b => some (if b then 1 else 0)
  | _ => none

/-- The planning loop of `_download_selective` (download_dataset.py lines
71-79): walk the `shardLengths` entries, breaking as soon as the running
episode total has reached `max_episodes`; each kept entry contributes its
`int(...)` value to the running total.  Returns the list of selected shard
indices together with the final running total, or `none` when `int`
raises on an entry that is reached. -/
def planShards : List JValue → Int → Int → Nat → Option (List Nat × Int)
  | [], episodesSoFar, _, _ => some ([], episodesSoFar)
  | v :: rest, episodesSoFar, maxEpisodes, idx =>
    if episodesSoFar ≥ maxEpisodes then some ([], episodesSoFar)
    else
      match jToInt? v with
      | none => none
      | some n =>
        match planShards rest (episodesSoFar + n) maxEpisodes (idx + 1) with
        | none => none
        | some (tail, total) => some (idx :: tail, total)

theorem planShards_spec (lens : List JValue) (ints : List Int)
    (episodesSoFar maxEpisodes : Int) (idx : Nat)
    (hparse : lens.mapM jToInt? = some ints) :
    ∃ k ≤ lens.length,
      planShards lens episodesSoFar maxEpisodes idx =
        some (List.range' idx k, episodesSoFar + (ints.take k).sum) ∧
      (∀ j < k, episodesSoFar + (ints.take j).sum < maxEpisodes) ∧
      (k < lens.length → maxEpisodes ≤ episodesSoFar + (ints.take k).sum) := by
  induction lens generalizing ints episodesSoFar idx with
  | nil =>
    refine ⟨0, by simp, ?_⟩
    simp [planShards]
  | cons v rest ih =>
    simp only [List.mapM_cons, Option.bind_eq_bind, Option.bind_eq_some] at hparse
    obtain ⟨n, hn, ints2, hints2, hcons⟩ := hparse
    rw [show pure (n :: ints2) = some (n :: ints2) from rfl, Option.some_inj] at hcons
    subst hcons
    by_cases hstop : episodesSoFar ≥ maxEpisodes
    · refine ⟨0, by simp, ?_, ?_, ?_⟩
      · simp [planShards, hstop]
      · intro j hj; omega
      · intro _; simpa using hstop
    · obtain ⟨k, hk, heq, hlt, hge⟩ := ih ints2 (episodesSoFar + n) (idx + 1) hints2
      refine ⟨k + 1, by simpa using Nat.succ_le_succ hk, ?_, ?_, ?_⟩
      · simp only [planShards, if_neg hstop, hn, heq, List.range'_succ,
          List.take_succ_cons, List.sum_cons, Option.some_inj, Prod.mk.injEq]
        exact ⟨trivial, by ring⟩
      · intro j hj
        match j with
        | 0 => simpa using lt_of_not_ge hstop
        | j + 1 =>
          have := hlt j (by omega)
          simp only [List.take_succ_cons, List.sum_cons]
          omega
      · intro hklt
        have := hge (by simpa using Nat.lt_of_succ_lt_succ hklt)
        simp only [List.take_succ_cons, List.sum_cons]
        omega

/-- Test whether a JSON value equals a given Python string (`x == "train"`). -/
def jEqStr (v : JValue) (s : PyStr) : Bool :=
  match v with
  | .str t => t = s
  | _ => false

/-- Model of Python indexing `v[i]` for list and string values; `none`
models `IndexError`/`TypeError`. -/
def jIndex? (v : JValue) (i : Nat) : Option JValue :=
  match v with
  | .arr l => l[i]?
  | .str s => (s[i]?).map (fun c => JValue.str [c])
  | _ => none

/-- Substitution value of a `str.format` field name used by
`_download_selective`; unknown names raise `KeyError` (`none`). -/
def pyFormatField (dataset split fileformat shard : PyStr) (name : PyStr) : Option PyStr :=
  if name = "DATASET".data then some dataset
  else if name = "SPLIT".data then some split
  else if name = "FILEFORMAT".data then some fileformat
  else if name = "SHARD_X_OF_Y".data then some shard
  else none

/-- Model of Python `template.format(DATASET=…, SPLIT=…, FILEFORMAT=…,
SHARD_X_OF_Y=…)` with a structural fuel argument (each step consumes at
least one character, so `fuel > template.length` always suffices): copy
literal characters, substitute `{NAME}` fields, honour `{{`/`}}` escapes;
`none` models the exceptions Python raises on a malformed template or an
unknown field name. -/
def pyFormatFuel (dataset split fileformat shard : PyStr) : Nat → PyStr → Option PyStr
  | 0, _ => none
  | _, [] => some []
  | fuel + 1, c :: rest =>
    if c = lbrace then
      match rest with
      | [] => none
      | c2 :: rest2 =>
        if c2 = lbrace then
          (pyFormatFuel dataset split fileformat shard fuel rest2).map (lbrace :: ·)
        else
          let after := (c2 :: rest2).dropWhile (· ≠ rbrace)
          if after.isEmpty then none
          else
            match pyFormatField dataset split fileformat shard
                ((c2 :: rest2).takeWhile (· ≠ rbrace)) with
            | none => none
            | some v =>
              (pyFormatFuel dataset split fileformat shard fuel after.tail).map (v ++ ·)
    else if c = rbrace then
      match rest with
      | [] => none
      | c2 :: rest2 =>
        if c2 = rbrace then
          (pyFormatFuel dataset split fileformat shard fuel rest2).map (rbrace :: ·)
        else none
    else (pyFormatFuel dataset split fileformat shard fuel rest).map (c :: ·)

/-- Model of Python `template.format(...)` as used by
`_download_selective`. -/
def pyFormat (dataset split fileformat shard : PyStr) (t : PyStr) : Option PyStr :=
  pyFormatFuel dataset split fileformat shard (t.length + 1) t

/-- The shard token `f"{i:05d}-of-{n:05d}"`. -/
def shardToken (i n : Nat) : PyStr := pad5 i ++ "-of-".data ++ pad5 n

/-- Translation of `dataset_to_version` (download_dataset.py lines 8-17). -/
def datasetToVersion (name : PyStr) : PyStr :=
  if name = "droid".data then "1.0.1".data
  else if name = "robo_net".data then "1.0.0".data
  else if name = "cmu_playing_with_food".data then "1.0.0".data
  else if name = "language_table".data then "0.0.1".data
  else "0.1.0".data

/-- Translation of `_get_dataset_prefix` (download_dataset.py lines 21-25). -/
def datasetPfx (name : PyStr) : PyStr :=
  if name = "droid".data then "droid_101".data else name

/-- One `gsutil cp` invocation, identified by its source and destination. -/
structure GsCall where
  src : PyStr
  dst : PyStr
deriving DecidableEq

/-- Model of `os.path.join` for the relative paths this tool builds. -/
def pyJoin (a b : PyStr) : PyStr := a ++ '/' :: b

/-- The metadata files `_download_selective` downloads first. -/
def metadataFiles : List PyStr := ["dataset_info.json".data, "features.json".data]

/-- Outcome of the shard-download loop: normal completion, early return
with a non-zero gsutil exit code, or an uncaught Python exception. -/
inductive ShardLoopOut where
  | ok : List GsCall → List (PyStr × PyStr) → ShardLoopOut
  | fail : Int → List GsCall → List (PyStr × PyStr) → ShardLoopOut
  | crash : List GsCall → List (PyStr × PyStr) → ShardLoopOut

/-- The shard-download loop of `_download_selective` (download_dataset.py
lines 93-127): for each `(new_shard_idx, original_shard_idx)` pair, build
the original and new filenames from the template, invoke gsutil on the
original name, return its exit code if non-zero, and rename the file to
the new name when the two names differ. -/
def shardLoop (fetch : PyStr → Int) (tmpl pfx srcBase versionDst : PyStr)
    (totalShards newTotalShards : Nat) :
    List (Nat × Nat) → List GsCall → List (PyStr × PyStr) → ShardLoopOut
  | [], calls, renames => .ok calls renames
  | (newIdx, origIdx) :: rest, calls, renames =>
    match pyFormat pfx "train".data "tfrecord".data (shardToken origIdx totalShards) tmpl,
          pyFormat pfx "train".data "tfrecord".data (shardToken newIdx newTotalShards) tmpl with
    | some origName, some newName =>
      let srcFile := srcBase ++ '/' :: origName
      let tempDst := pyJoin versionDst origName
      let finalDst := pyJoin versionDst newName
      let rc := fetch srcFile
      let calls2 := calls ++ [⟨srcFile, tempDst⟩]
      if rc ≠ 0 then .fail rc calls2 renames
      else
        shardLoop fetch tmpl pfx srcBase versionDst totalShards newTotalShards rest calls2
          (if tempDst ≠ finalDst then renames ++ [(tempDst, finalDst)] else renames)
    | _, _ => .crash calls renames

/-- The metadata-download loop of `_download_selective` (download_dataset.py
lines 35-44): download each metadata file, returning the gsutil exit code
as soon as one invocation fails. -/
def metaPhase (fetch : PyStr → Int) (srcBase versionDst : PyStr) :
    List PyStr → List GsCall → (List GsCall) ⊕ (Int × List GsCall)
  | [], calls => .inl calls
  | m :: rest, calls =>
    let srcFile := srcBase ++ '/' :: m
    let dstFile := pyJoin versionDst m
    let rc := fetch srcFile
    let calls2 := calls ++ [⟨srcFile, dstFile⟩]
    if rc ≠ 0 then .inr (rc, calls2) else metaPhase fetch srcBase versionDst rest calls2

/-- The train-split search of `_download_selective` (download_dataset.py
lines 56-60): the field list of the first split whose `name` equals
`"train"`; `some none` when no such split exists, `none` when an element
is not a dict (Python raises there). -/
def findTrain : List JValue → Option (Option (List (PyStr × JValue)))
  | [] => some none
  | s :: rest =>
    match s with
    | .obj fields =>
      if jEqStr ((jLookup fields "name".data).getD JValue.null) "train".data
      then some (some fields)
      else findTrain rest
    | _ => none

/-- The in-place mutation `train_split["shardLengths"] = …` as seen from
the document root: the first `"train"` split inside the `splits` array of
the first `"splits"` field gets its `shardLengths` value replaced. -/
def setTrainLens : List JValue → JValue → List JValue
  | [], _ => []
  | s :: rest, newLens =>
    match s with
    | .obj fields =>
      if jEqStr ((jLookup fields "name".data).getD JValue.null) "train".data
      then JValue.obj (jSetKey fields "shardLengths".data newLens) :: rest
      else s :: setTrainLens rest newLens
    | v => v :: setTrainLens rest newLens

/-- Effect of the shard-length mutation on the whole document. -/
def updSplitsField : List (PyStr × JValue) → JValue → List (PyStr × JValue)
  | [], _ => []
  | (k, v) :: rest, newLens =>
    if k = "splits".data then
      (k, match v with | .arr l => JValue.arr (setTrainLens l newLens) | w => w) :: rest
    else (k, v) :: updSplitsField rest newLens

/-- The document written back as `dataset_info.json` after the mutation. -/
def updateDatasetInfo (doc : JValue) (newLens : JValue) : JValue :=
  match doc with
  | .obj fields => .obj (updSplitsField fields newLens)
  | v => v

/-- Observable result of a `_download_selective` run: the returned exit
code (`none` when an uncaught Python exception ends the run), the gsutil
invocations in order, the renames performed, and the document written back
as `dataset_info.json` (when the run got that far). -/
structure DlResult where
  outcome : Option Int
  calls : List GsCall
  renames : List (PyStr × PyStr)
  written : Option JValue

/-- Translation of `_download_selective` (download_dataset.py lines
28-139).  `fetch` gives the exit code of `gsutil cp` for a source path and
`parsedInfo` the parse result of the downloaded `dataset_info.json`
(`none` models a parse failure, which the code catches and turns into
return code 1). -/
def downloadSelective (fetch : PyStr → Int) (parsedInfo : Option JValue)
    (srcBase dst datasetName version : PyStr) (maxEpisodes : Int) : DlResult :=
  let versionDst := pyJoin dst version
  match metaPhase fetch srcBase versionDst metadataFiles [] with
  | .inr (rc, calls) => ⟨some rc, calls, [], none⟩
  | .inl calls =>
  match parsedInfo with
  | none => ⟨some 1, calls, [], none⟩
  | some info =>
  match jGetD? info "splits".data (JValue.arr []) with
  | none => ⟨none, calls, [], none⟩
  | some splitsVal =>
  match jIter? splitsVal with
  | none => ⟨none, calls, [], none⟩
  | some splitsList =>
  match findTrain splitsList with
  | none => ⟨none, calls, [], none⟩
  | some none => ⟨some 1, calls, [], none⟩
  | some (some tsFields) =>
  let shardLengthsVal := (jLookup tsFields "shardLengths".data).getD (JValue.arr [])
  if ¬ pyTruthy shardLengthsVal then ⟨some 1, calls, [], none⟩
  else
  match jIter? shardLengthsVal with
  | none => ⟨none, calls, [], none⟩
  | some lens =>
  match planShards lens 0 maxEpisodes 0 with
  | none => ⟨none, calls, [], none⟩
  | some (shardsNeeded, _episodesSoFar) =>
  let tmplVal := (jLookup tsFields "filepathTemplate".data).getD (JValue.str [])
  if ¬ pyTruthy tmplVal then ⟨some 1, calls, [], none⟩
  else
  let finish : List GsCall → List (PyStr × PyStr) → DlResult := fun calls2 renames =>
    match shardsNeeded.mapM (jIndex? shardLengthsVal) with
    | none => ⟨none, calls2, renames, none⟩
    | some sel => ⟨some 0, calls2, renames, some (updateDatasetInfo info (JValue.arr sel))⟩
  match tmplVal with
  | .str tmpl =>
    match shardLoop fetch tmpl (datasetPfx datasetName) srcBase versionDst
        lens.length shardsNeeded.length shardsNeeded.enum calls [] with
    | .ok calls2 renames => finish calls2 renames
    | .fail rc calls2 renames => ⟨some rc, calls2, renames, none⟩
    | .crash calls2 renames => ⟨none, calls2, renames, none⟩
  | _ => if shardsNeeded.isEmpty then finish calls [] else ⟨none, calls, [], none⟩

/-- The `gs://gresearch/robotics/{name}/{version}` source base used by
`download_datasets`. -/
def gsBase (name : PyStr) : PyStr :=
  "gs://gresearch/robotics/".data ++ name ++ '/' :: datasetToVersion name

/-- The whole-dataset branch of `download_datasets` (download_dataset.py
lines 155-163): one recursive `gsutil -m cp -r` invocation per dataset,
returning the exit code of the first failing invocation. -/
def downloadDatasetsFull (fetch : PyStr → Int) (outDir : PyStr) :
    List PyStr → List GsCall → Int × List GsCall
  | [], calls => (0, calls)
  | name :: rest, calls =>
    let srcBase := gsBase name
    let dst := pyJoin outDir name
    let rc := fetch srcBase
    let calls2 := calls ++ [⟨srcBase, dst⟩]
    if rc ≠ 0 then (rc, calls2) else downloadDatasetsFull fetch outDir rest calls2

theorem mapM_jToInt_length (lens : List JValue) (ints : List Int)
    (h : lens.mapM jToInt? = some ints) : ints.length = lens.length := by
  induction lens generalizing ints with
  | nil =>
    rw [show ([] : List JValue).mapM jToInt? = some [] from rfl, Option.some_inj] at h
    subst h
    rfl
  | cons v rest ih =>
    simp only [List.mapM_cons, Option.bind_eq_bind, Option.bind_eq_some] at h
    obtain ⟨n, _, ints2, hints2, hcons⟩ := h
    rw [show pure (n :: ints2) = some (n :: ints2) from rfl, Option.some_inj] at hcons
    subst hcons
    simp [ih ints2 hints2]

/-- C1: for a train split with a non-empty `shardLengths` list and any
`max_episodes`, the planning loop of `_download_selective` selects exactly
the shortest prefix `[0..k-1]` of the shard list whose cumulative episode
count reaches `max_episodes` — all shards when the total stays below
`max_episodes`, and the empty prefix when `max_episodes ≤ 0`. -/
theorem downloadSelective_plans_shortest_reaching_prefix
    (lens : List JValue) (ints : List Int) (maxEpisodes : Int)
    (hparse : lens.mapM jToInt? = some ints)
    (hne : lens ≠ [])
    (hnonneg : ∀ x ∈ ints, 0 ≤ x) :
    ∃ k ≤ lens.length,
      (∃ total, planShards lens 0 maxEpisodes 0 = some (List.range k, total)) ∧
      (∀ j < k, (ints.take j).sum < maxEpisodes) ∧
      (k < lens.length → maxEpisodes ≤ (ints.take k).sum) ∧
      (ints.sum < maxEpisodes → k = lens.length) ∧
      (maxEpisodes ≤ 0 → k = 0) := by
  obtain ⟨k, hk, heq, hlt, hge⟩ := planShards_spec lens ints 0 maxEpisodes 0 hparse
  have hlen : ints.length = lens.length := mapM_jToInt_length lens ints hparse
  simp only [zero_add] at heq hlt hge
  refine ⟨k, hk, ⟨_, by rw [heq, List.range_eq_range']⟩, hlt, hge, ?_, ?_⟩
  · intro htotal
    by_contra hne2
    have hklt : k < lens.length := lt_of_le_of_ne hk hne2
    have h1 := hge hklt
    have h2 : (ints.take k).sum ≤ ints.sum := by
      conv_rhs => rw [← List.take_append_drop k ints]
      rw [List.sum_append]
      have : 0 ≤ (ints.drop k).sum :=
        List.sum_nonneg (fun x hx => hnonneg x (List.mem_of_mem_drop hx))
      omega
    omega
  · intro hmax
    by_contra hk0
    have := hlt 0 (Nat.pos_of_ne_zero hk0)
    simp at this
    omega

/-- Witness for C1 at a concrete three-shard split with a budget of six
episodes. -/
theorem downloadSelective_plans_shortest_reaching_prefix_witness :
    ([JValue.str "5".data, JValue.str "3".data, JValue.str "4".data].mapM jToInt? =
      some [5, 3, 4] ∧
     [JValue.str "5".data, JValue.str "3".data, JValue.str "4".data] ≠ [] ∧
     ∀ x ∈ [(5 : Int), 3, 4], 0 ≤ x) ∧
    (∃ k ≤ [JValue.str "5".data, JValue.str "3".data, JValue.str "4".data].length,
      (∃ total, planShards [JValue.str "5".data, JValue.str "3".data, JValue.str "4".data]
          0 6 0 = some (List.range k, total)) ∧
      (∀ j < k, (([5, 3, 4] : List Int).take j).sum < 6) ∧
      (k < [JValue.str "5".data, JValue.str "3".data, JValue.str "4".data].length →
        6 ≤ (([5, 3, 4] : List Int).take k).sum) ∧
      (([5, 3, 4] : List Int).sum < 6 →
        k = [JValue.str "5".data, JValue.str "3".data, JValue.str "4".data].length) ∧
      ((6 : Int) ≤ 0 → k = 0)) :=
  ⟨⟨by decide, by simp, by decide⟩,
    downloadSelective_plans_shortest_reaching_prefix _ _ 6 (by decide) (by simp) (by decide)⟩

theorem jLookup_append (pre post : List (PyStr × JValue)) (key : PyStr) (v : JValue)
    (hpre : ∀ kv ∈ pre, kv.1 ≠ key) :
    jLookup (pre ++ (key, v) :: post) key = some v := by
  induction pre with
  | nil => simp [jLookup]
  | cons kv rest ih =>
    have h1 : kv.1 ≠ key := hpre kv (by simp)
    simp only [List.cons_append, jLookup, if_neg h1]
    exact ih (fun x hx => hpre x (by simp [hx]))

/-- Auxiliary shape of the elements preceding the train split: objects
whose `name` is not the string `"train"`. -/
def notTrainObj (s : JValue) : Prop :=
  ∃ f, s = JValue.obj f ∧
    jEqStr ((jLookup f "name".data).getD JValue.null) "train".data = false

theorem findTrain_append (pre2 post2 : List JValue) (tsFields : List (PyStr × JValue))
    (hpre2 : ∀ s ∈ pre2, notTrainObj s)
    (hts : jEqStr ((jLookup tsFields "name".data).getD JValue.null) "train".data = true) :
    findTrain (pre2 ++ JValue.obj tsFields :: post2) = some (some tsFields) := by
  induction pre2 with
  | nil => simp [findTrain, hts]
  | cons s rest ih =>
    obtain ⟨f, hf, hnot⟩ := hpre2 s (by simp)
    subst hf
    simp only [List.cons_append, findTrain, hnot, Bool.false_eq_true, if_false]
    exact ih (fun x hx => hpre2 x (by simp [hx]))

theorem setTrainLens_append (pre2 post2 : List JValue) (tsFields : List (PyStr × JValue))
    (newLens : JValue)
    (hpre2 : ∀ s ∈ pre2, notTrainObj s)
    (hts : jEqStr ((jLookup tsFields "name".data).getD JValue.null) "train".data = true) :
    setTrainLens (pre2 ++ JValue.obj tsFields :: post2) newLens =
      pre2 ++ JValue.obj (jSetKey tsFields "shardLengths".data newLens) :: post2 := by
  induction pre2 with
  | nil => simp [setTrainLens, hts]
  | cons s rest ih =>
    obtain ⟨f, hf, hnot⟩ := hpre2 s (by simp)
    subst hf
    simp only [List.cons_append, setTrainLens, hnot, Bool.false_eq_true, if_false,
      List.append_eq]
    rw [ih (fun x hx => hpre2 x (by simp [hx]))]

theorem jSetKey_append (pre post : List (PyStr × JValue)) (key : PyStr) (old new : JValue)
    (hpre : ∀ kv ∈ pre, kv.1 ≠ key) :
    jSetKey (pre ++ (key, old) :: post) key new = pre ++ (key, new) :: post := by
  induction pre with
  | nil => simp [jSetKey]
  | cons kv rest ih =>
    have h1 : kv.1 ≠ key := hpre kv (by simp)
    simp only [List.cons_append, jSetKey, if_neg h1, List.append_eq]
    rw [ih (fun x hx => hpre x (by simp [hx]))]

theorem updSplitsField_append (pre post : List (PyStr × JValue)) (v newLens : JValue)
    (hpre : ∀ kv ∈ pre, kv.1 ≠ "splits".data) :
    updSplitsField (pre ++ ("splits".data, v) :: post) newLens =
      pre ++ ("splits".data,
        match v with | .arr l => JValue.arr (setTrainLens l newLens) | w => w) :: post := by
  induction pre with
  | nil => simp [updSplitsField]
  | cons kv rest ih =>
    have h1 : kv.1 ≠ "splits".data := hpre kv (by simp)
    simp only [List.cons_append, updSplitsField, if_neg h1, List.append_eq]
    rw [ih (fun x hx => hpre x (by simp [hx]))]

theorem planShards_success_shape (lens : List JValue) (eps maxE : Int) (idx : Nat)
    (sel : List Nat) (total : Int)
    (h : planShards lens eps maxE idx = some (sel, total)) :
    ∃ k ≤ lens.length, sel = List.range' idx k := by
  induction lens generalizing eps idx sel total with
  | nil =>
    refine ⟨0, by simp, ?_⟩
    simp [planShards] at h
    simp [h.1.symm]
  | cons v rest ih =>
    by_cases hstop : eps ≥ maxE
    · simp [planShards, hstop] at h
      exact ⟨0, by simp, by simp [h.1.symm]⟩
    · simp only [planShards, if_neg hstop] at h
      split at h
      · exact absurd h (by simp)
      · rename_i n hint
        split at h
        · exact absurd h (by simp)
        · rename_i tail tot2 hrec
          simp only [Option.some_inj, Prod.mk.injEq] at h
          obtain ⟨k, hk, htail⟩ := ih (eps + n) (idx + 1) tail tot2 hrec
          refine ⟨k + 1, by simpa using Nat.succ_le_succ hk, ?_⟩
          rw [← h.1, htail, List.range'_succ]

theorem mapM_getElem_range' (l : List JValue) (i k : Nat) (h : i + k ≤ l.length) :
    (List.range' i k).mapM (fun j => l[j]?) = some ((l.drop i).take k) := by
  induction k generalizing i with
  | zero => rfl
  | succ k ih =>
    have hi : i < l.length := by omega
    have h1 : l[i]? = some l[i] := List.getElem?_eq_getElem hi
    have h2 := ih (i + 1) (by omega)
    have h3 : l.drop i = l[i] :: l.drop (i + 1) := List.drop_eq_getElem_cons hi
    rw [List.range'_succ, List.mapM_cons, h1, h2, h3, List.take_succ_cons]
    rfl

theorem shardLoop_fail_rc_ne_zero (fetch : PyStr → Int) (tmpl pfx srcBase versionDst : PyStr)
    (total newTotal : Nat) (pairs : List (Nat × Nat)) (calls : List GsCall)
    (renames : List (PyStr × PyStr)) (rc : Int) (calls2 : List GsCall)
    (renames2 : List (PyStr × PyStr))
    (h : shardLoop fetch tmpl pfx srcBase versionDst total newTotal pairs calls renames =
      .fail rc calls2 renames2) : rc ≠ 0 := by
  induction pairs generalizing calls renames with
  | nil => simp [shardLoop] at h
  | cons p rest ih =>
    obtain ⟨newIdx, origIdx⟩ := p
    simp only [shardLoop] at h
    match h1 : pyFormat pfx "train".data "tfrecord".data (shardToken origIdx total) tmpl,
          h2 : pyFormat pfx "train".data "tfrecord".data (shardToken newIdx newTotal) tmpl with
    | some origName, some newName =>
      rw [h1, h2] at h
      simp only at h
      split at h
      · rename_i hrc
        simp only [ShardLoopOut.fail.injEq] at h
        omega
      · rename_i hrc
        exact ih _ _ h
    | some _, none => rw [h1, h2] at h; simp at h
    | none, some _ => rw [h1, h2] at h; simp at h
    | none, none => rw [h1, h2] at h; simp at h

theorem metaPhase_fail_rc_ne_zero (fetch : PyStr → Int) (srcBase versionDst : PyStr)
    (files : List PyStr) (calls : List GsCall) (rc : Int) (calls2 : List GsCall)
    (h : metaPhase fetch srcBase versionDst files calls = .inr (rc, calls2)) : rc ≠ 0 := by
  induction files generalizing calls with
  | nil => simp [metaPhase] at h
  | cons m rest ih =>
    simp only [metaPhase] at h
    split at h
    · rename_i hrc
      simp only [Sum.inr.injEq, Prod.mk.injEq] at h
      omega
    · exact ih _ h

/-- A `dataset_info.json` document with a given field list around the
`splits` entry. -/
def mkInfoDoc (pre1 post1 : List (PyStr × JValue)) (splitsList : List JValue) : JValue :=
  JValue.obj (pre1 ++ ("splits".data, JValue.arr splitsList) :: post1)

/-- A split object with a given field list around the `shardLengths`
entry. -/
def mkTrainSplit (pre3 post3 : List (PyStr × JValue)) (lensVal : JValue) : JValue :=
  JValue.obj (pre3 ++ ("shardLengths".data, lensVal) :: post3)

/-- Residual behaviour of `_download_selective` once the JSON navigation
(top-level dict, `splits` array, first train split, non-empty
`shardLengths` array, non-empty string `filepathTemplate`) has been
resolved; `downloadSelective_runs` proves the reduction. -/
def runAfterNav (fetch : PyStr → Int) (doc : JValue) (lens : List JValue)
    (tmpl srcBase dst dsName version : PyStr) (maxE : Int) : DlResult :=
  let versionDst := pyJoin dst version
  match metaPhase fetch srcBase versionDst metadataFiles [] with
  | .inr (rc, calls) => ⟨some rc, calls, [], none⟩
  | .inl calls =>
    match planShards lens 0 maxE 0 with
    | none => ⟨none, calls, [], none⟩
    | some (needed, _) =>
      match shardLoop fetch tmpl (datasetPfx dsName) srcBase versionDst
          lens.length needed.length needed.enum calls [] with
      | .ok calls2 renames =>
        match needed.mapM (jIndex? (JValue.arr lens)) with
        | none => ⟨none, calls2, renames, none⟩
        | some sel => ⟨some 0, calls2, renames, some (updateDatasetInfo doc (JValue.arr sel))⟩
      | .fail rc calls2 renames => ⟨some rc, calls2, renames, none⟩
      | .crash calls2 renames => ⟨none, calls2, renames, none⟩

theorem downloadSelective_runs (fetch : PyStr → Int)
    (pre1 post1 : List (PyStr × JValue)) (pre2 post2 : List JValue)
    (pre3 post3 : List (PyStr × JValue)) (lens : List JValue) (tmpl : PyStr)
    (srcBase dst dsName version : PyStr) (maxE : Int)
    (hpre1 : ∀ kv ∈ pre1, kv.1 ≠ "splits".data)
    (hpre2 : ∀ s ∈ pre2, notTrainObj s)
    (hpre3 : ∀ kv ∈ pre3, kv.1 ≠ "shardLengths".data)
    (hts : jEqStr ((jLookup (pre3 ++ ("shardLengths".data, JValue.arr lens) :: post3)
      "name".data).getD JValue.null) "train".data = true)
    (hlens : lens ≠ [])
    (htmpl : jLookup (pre3 ++ ("shardLengths".data, JValue.arr lens) :: post3)
      "filepathTemplate".data = some (JValue.str tmpl))
    (htmplNe : tmpl ≠ []) :
    downloadSelective fetch
        (some (mkInfoDoc pre1 post1
          (pre2 ++ mkTrainSplit pre3 post3 (JValue.arr lens) :: post2)))
        srcBase dst dsName version maxE =
      runAfterNav fetch
        (mkInfoDoc pre1 post1
          (pre2 ++ mkTrainSplit pre3 post3 (JValue.arr lens) :: post2))
        lens tmpl srcBase dst dsName version maxE := by
  have e1 : jGetD? (mkInfoDoc pre1 post1
      (pre2 ++ mkTrainSplit pre3 post3 (JValue.arr lens) :: post2)) "splits".data
      (JValue.arr []) =
      some (JValue.arr (pre2 ++ mkTrainSplit pre3 post3 (JValue.arr lens) :: post2)) := by
    simp only [mkInfoDoc, jGetD?, jLookup_append pre1 post1 _ _ hpre1, Option.getD_some]
  have e3 : findTrain (pre2 ++ mkTrainSplit pre3 post3 (JValue.arr lens) :: post2) =
      some (some (pre3 ++ ("shardLengths".data, JValue.arr lens) :: post3)) :=
    findTrain_append pre2 post2 _ hpre2 hts
  have e4 : jLookup (pre3 ++ ("shardLengths".data, JValue.arr lens) :: post3)
      "shardLengths".data = some (JValue.arr lens) :=
    jLookup_append pre3 post3 _ _ hpre3
  have e5 : pyTruthy (JValue.arr lens) = true := by
    simp [pyTruthy, hlens]
  simp only [downloadSelective, runAfterNav, e1, e3, e4, e5, htmpl, jIter?,
    Option.getD_some, not_true, Bool.not_eq_true, if_false, Bool.false_eq_true]
  have e6 : pyTruthy (JValue.str tmpl) = true := by
    simp [pyTruthy, htmplNe]
  simp only [e6, Bool.not_eq_true, Bool.true_eq_false, if_false]

/-- C2: when `_download_selective` succeeds after selecting `k` shards,
the `dataset_info.json` it writes is the downloaded document with exactly
one change — the train split's `shardLengths` becomes the list of lengths
of the `k` selected shards in their original order; every surrounding
field (`pre1`/`post1` at top level, the other splits `pre2`/`post2`, and
the other split fields `pre3`/`post3`) is reproduced unchanged. -/
theorem downloadSelective_rewrites_only_train_shardLengths (fetch : PyStr → Int)
    (pre1 post1 : List (PyStr × JValue)) (pre2 post2 : List JValue)
    (pre3 post3 : List (PyStr × JValue)) (lens : List JValue) (tmpl : PyStr)
    (srcBase dst dsName version : PyStr) (maxE : Int)
    (hpre1 : ∀ kv ∈ pre1, kv.1 ≠ "splits".data)
    (hpre2 : ∀ s ∈ pre2, notTrainObj s)
    (hpre3 : ∀ kv ∈ pre3, kv.1 ≠ "shardLengths".data)
    (hts : jEqStr ((jLookup (pre3 ++ ("shardLengths".data, JValue.arr lens) :: post3)
      "name".data).getD JValue.null) "train".data = true)
    (hlens : lens ≠ [])
    (htmpl : jLookup (pre3 ++ ("shardLengths".data, JValue.arr lens) :: post3)
      "filepathTemplate".data = some (JValue.str tmpl))
    (htmplNe : tmpl ≠ [])
    (houtcome : (downloadSelective fetch
        (some (mkInfoDoc pre1 post1
          (pre2 ++ mkTrainSplit pre3 post3 (JValue.arr lens) :: post2)))
        srcBase dst dsName version maxE).outcome = some 0) :
    ∃ k total, planShards lens 0 maxE 0 = some (List.range k, total) ∧
      (downloadSelective fetch
        (some (mkInfoDoc pre1 post1
          (pre2 ++ mkTrainSplit pre3 post3 (JValue.arr lens) :: post2)))
        srcBase dst dsName version maxE).written =
        some (mkInfoDoc pre1 post1
          (pre2 ++ mkTrainSplit pre3 post3 (JValue.arr (lens.take k)) :: post2)) := by
  rw [downloadSelective_runs fetch pre1 post1 pre2 post2 pre3 post3 lens tmpl
    srcBase dst dsName version maxE hpre1 hpre2 hpre3 hts hlens htmpl htmplNe] at houtcome ⊢
  cases hmeta : metaPhase fetch srcBase (pyJoin dst version) metadataFiles [] with
  | inr p =>
    obtain ⟨rc, calls⟩ := p
    have hval : runAfterNav fetch
        (mkInfoDoc pre1 post1 (pre2 ++ mkTrainSplit pre3 post3 (JValue.arr lens) :: post2))
        lens tmpl srcBase dst dsName version maxE =
        ⟨some rc, calls, [], none⟩ := by
      simp only [runAfterNav, hmeta]
    rw [hval] at houtcome
    simp only [Option.some_inj] at houtcome
    exact absurd (houtcome ▸ metaPhase_fail_rc_ne_zero fetch _ _ _ _ rc calls hmeta) (by simp)
  | inl calls =>
    cases hplan : planShards lens 0 maxE 0 with
    | none =>
      have hval : runAfterNav fetch
          (mkInfoDoc pre1 post1 (pre2 ++ mkTrainSplit pre3 post3 (JValue.arr lens) :: post2))
          lens tmpl srcBase dst dsName version maxE =
          ⟨none, calls, [], none⟩ := by
        simp only [runAfterNav, hmeta, hplan]
      rw [hval] at houtcome
      simp at houtcome
    | some p =>
      obtain ⟨needed, eps⟩ := p
      obtain ⟨k, hk, hshape⟩ := planShards_success_shape lens 0 maxE 0 needed eps hplan
      subst hshape
      cases hloop : shardLoop fetch tmpl (datasetPfx dsName) srcBase (pyJoin dst version)
          lens.length (List.range' 0 k).length (List.range' 0 k).enum calls [] with
      | fail rc calls2 renames =>
        have hval : runAfterNav fetch
            (mkInfoDoc pre1 post1 (pre2 ++ mkTrainSplit pre3 post3 (JValue.arr lens) :: post2))
            lens tmpl srcBase dst dsName version maxE =
            ⟨some rc, calls2, renames, none⟩ := by
          simp only [runAfterNav, hmeta, hplan, hloop]
        rw [hval] at houtcome
        simp only [Option.some_inj] at houtcome
        exact absurd (houtcome ▸ shardLoop_fail_rc_ne_zero fetch _ _ _ _ _ _ _ _ _
          rc calls2 renames hloop) (by simp)
      | crash calls2 renames =>
        have hval : runAfterNav fetch
            (mkInfoDoc pre1 post1 (pre2 ++ mkTrainSplit pre3 post3 (JValue.arr lens) :: post2))
            lens tmpl srcBase dst dsName version maxE =
            ⟨none, calls2, renames, none⟩ := by
          simp only [runAfterNav, hmeta, hplan, hloop]
        rw [hval] at houtcome
        simp at houtcome
      | ok calls2 renames =>
        have hsel : (List.range' 0 k).mapM (jIndex? (JValue.arr lens)) =
            some (lens.take k) := by
          have := mapM_getElem_range' lens 0 k (by omega)
          simpa using this
        have hupd : updateDatasetInfo
            (mkInfoDoc pre1 post1
              (pre2 ++ mkTrainSplit pre3 post3 (JValue.arr lens) :: post2))
            (JValue.arr (lens.take k)) =
            mkInfoDoc pre1 post1
              (pre2 ++ mkTrainSplit pre3 post3 (JValue.arr (lens.take k)) :: post2) := by
          simp only [mkInfoDoc, mkTrainSplit, updateDatasetInfo]
          rw [updSplitsField_append pre1 post1 _ _ hpre1]
          simp only []
          rw [setTrainLens_append pre2 post2 _ _ hpre2 hts]
          rw [jSetKey_append pre3 post3 _ _ _ hpre3]
        have hval : runAfterNav fetch
            (mkInfoDoc pre1 post1 (pre2 ++ mkTrainSplit pre3 post3 (JValue.arr lens) :: post2))
            lens tmpl srcBase dst dsName version maxE =
            ⟨some 0, calls2, renames,
              some (mkInfoDoc pre1 post1
                (pre2 ++ mkTrainSplit pre3 post3 (JValue.arr (lens.take k)) :: post2))⟩ := by
          simp only [runAfterNav, hmeta, hplan, hloop, hsel, hupd]
        rw [hval]
        refine ⟨k, eps, ?_, ?_⟩
        · rw [List.range_eq_range']
        · rfl

/-- Concrete top-level fields before `splits` used by witnesses. -/
def wPre1 : List (PyStr × JValue) := [("citation".data, JValue.str "x".data)]

/-- Concrete top-level fields after `splits` used by witnesses. -/
def wPost1 : List (PyStr × JValue) := [("version".data, JValue.str "1.0.0".data)]

/-- A concrete non-train split preceding the train split in witnesses. -/
def wPre2 : List JValue := [JValue.obj [("name".data, JValue.str "test".data)]]

/-- The standard TFDS filepath template used by witnesses. -/
def wTmpl : PyStr := "{DATASET}-{SPLIT}.{FILEFORMAT}-{SHARD_X_OF_Y}".data

/-- Concrete train-split fields before `shardLengths` used by witnesses. -/
def wPre3 : List (PyStr × JValue) := [("name".data, JValue.str "train".data)]

/-- Concrete train-split fields after `shardLengths` used by witnesses. -/
def wPost3 : List (PyStr × JValue) := [("filepathTemplate".data, JValue.str wTmpl)]

/-- Concrete shard lengths (as TFDS writes them, strings) used by
witnesses. -/
def wLens : List JValue := [JValue.str "5".data, JValue.str "3".data]

/-- Witness for C2 at a concrete two-shard dataset with a budget of five
episodes (one shard selected), all downloads succeeding. -/
theorem downloadSelective_rewrites_only_train_shardLengths_witness :
    ((∀ kv ∈ wPre1, kv.1 ≠ "splits".data) ∧
     (∀ s ∈ wPre2, notTrainObj s) ∧
     (∀ kv ∈ wPre3, kv.1 ≠ "shardLengths".data) ∧
     jEqStr ((jLookup (wPre3 ++ ("shardLengths".data, JValue.arr wLens) :: wPost3)
       "name".data).getD JValue.null) "train".data = true ∧
     wLens ≠ [] ∧
     jLookup (wPre3 ++ ("shardLengths".data, JValue.arr wLens) :: wPost3)
       "filepathTemplate".data = some (JValue.str wTmpl) ∧
     wTmpl ≠ [] ∧
     (downloadSelective (fun _ => 0)
        (some (mkInfoDoc wPre1 wPost1
          (wPre2 ++ mkTrainSplit wPre3 wPost3 (JValue.arr wLens) :: [])))
        "gs://x".data "/d".data "foo".data "0.1.0".data 5).outcome = some 0) ∧
    (∃ k total, planShards wLens 0 5 0 = some (List.range k, total) ∧
      (downloadSelective (fun _ => 0)
        (some (mkInfoDoc wPre1 wPost1
          (wPre2 ++ mkTrainSplit wPre3 wPost3 (JValue.arr wLens) :: [])))
        "gs://x".data "/d".data "foo".data "0.1.0".data 5).written =
        some (mkInfoDoc wPre1 wPost1
          (wPre2 ++ mkTrainSplit wPre3 wPost3 (JValue.arr (wLens.take k)) :: []))) :=
  ⟨⟨by decide,
    by
      intro s hs
      rw [wPre2, List.mem_singleton] at hs
      subst hs
      exact ⟨_, rfl, by decide⟩,
    by decide, by decide, by simp [wLens], by rfl, by decide, by rfl⟩,
   downloadSelective_rewrites_only_train_shardLengths (fun _ => 0)
     wPre1 wPost1 wPre2 [] wPre3 wPost3 wLens wTmpl
     "gs://x".data "/d".data "foo".data "0.1.0".data 5
     (by decide)
     (by
       intro s hs
       rw [wPre2, List.mem_singleton] at hs
       subst hs
       exact ⟨_, rfl, by decide⟩)
     (by decide) (by decide) (by simp [wLens]) (by rfl) (by decide) (by rfl)⟩

/-- The prefix of a planned call list that actually runs when each call's
exit code is given by `fetch`: all calls up to and including the first
failing one. -/
def callsUntilFail (fetch : PyStr → Int) : List GsCall → List GsCall
  | [] => []
  | c :: rest => if fetch c.src = 0 then c :: callsUntilFail fetch rest else [c]

/-- Exit code of the first failing call of a planned call list, if any. -/
def firstFailRc (fetch : PyStr → Int) : List GsCall → Option Int
  | [] => none
  | c :: rest => if fetch c.src = 0 then firstFailRc fetch rest else some (fetch c.src)

theorem firstFailRc_eq_none_iff (fetch : PyStr → Int) (l : List GsCall) :
    firstFailRc fetch l = none ↔ ∀ c ∈ l, fetch c.src = 0 := by
  induction l with
  | nil => simp [firstFailRc]
  | cons c rest ih =>
    by_cases h : fetch c.src = 0
    · simp [firstFailRc, h, ih]
    · simp [firstFailRc, h]

theorem firstFailRc_ne_zero (fetch : PyStr → Int) (l : List GsCall) (rc : Int)
    (h : firstFailRc fetch l = some rc) : rc ≠ 0 := by
  induction l with
  | nil => simp [firstFailRc] at h
  | cons c rest ih =>
    by_cases hc : fetch c.src = 0
    · rw [firstFailRc, if_pos hc] at h
      exact ih h
    · rw [firstFailRc, if_neg hc] at h
      simp only [Option.some_inj] at h
      omega

theorem callsUntilFail_of_all_zero (fetch : PyStr → Int) (l : List GsCall)
    (h : ∀ c ∈ l, fetch c.src = 0) : callsUntilFail fetch l = l := by
  induction l with
  | nil => rfl
  | cons c rest ih =>
    rw [callsUntilFail, if_pos (h c (by simp))]
    rw [ih (fun x hx => h x (by simp [hx]))]

theorem callsUntilFail_eq_take (fetch : PyStr → Int) (l : List GsCall) :
    ∃ n, callsUntilFail fetch l = l.take n := by
  induction l with
  | nil => exact ⟨0, rfl⟩
  | cons c rest ih =>
    by_cases h : fetch c.src = 0
    · obtain ⟨n, hn⟩ := ih
      exact ⟨n + 1, by simp [callsUntilFail, h, hn]⟩
    · exact ⟨1, by simp [callsUntilFail, h]⟩

theorem firstFailRc_append_of_none (fetch : PyStr → Int) (a b : List GsCall)
    (h : firstFailRc fetch a = none) :
    firstFailRc fetch (a ++ b) = firstFailRc fetch b := by
  induction a with
  | nil => rfl
  | cons c rest ih =>
    by_cases hc : fetch c.src = 0
    · rw [firstFailRc, if_pos hc] at h
      simp only [List.cons_append, firstFailRc, if_pos hc]
      exact ih h
    · rw [firstFailRc, if_neg hc] at h
      simp at h

theorem callsUntilFail_append_of_none (fetch : PyStr → Int) (a b : List GsCall)
    (h : firstFailRc fetch a = none) :
    callsUntilFail fetch (a ++ b) = a ++ callsUntilFail fetch b := by
  induction a with
  | nil => rfl
  | cons c rest ih =>
    by_cases hc : fetch c.src = 0
    · rw [firstFailRc, if_pos hc] at h
      simp only [List.cons_append, callsUntilFail, if_pos hc, List.append_eq]
      rw [ih h]
    · rw [firstFailRc, if_neg hc] at h
      simp at h

/-- The planned metadata calls of `_download_selective`. -/
def metaCalls (srcBase versionDst : PyStr) (files : List PyStr) : List GsCall :=
  files.map (fun m => ⟨srcBase ++ '/' :: m, pyJoin versionDst m⟩)

theorem metaPhase_spec (fetch : PyStr → Int) (srcBase versionDst : PyStr) :
    ∀ (files : List PyStr) (calls : List GsCall),
    metaPhase fetch srcBase versionDst files calls =
      match firstFailRc fetch (metaCalls srcBase versionDst files) with
      | none => .inl (calls ++ metaCalls srcBase versionDst files)
      | some rc => .inr (rc, calls ++ callsUntilFail fetch (metaCalls srcBase versionDst files))
  | [], calls => by simp [metaPhase, metaCalls, firstFailRc]
  | m :: rest, calls => by
    rw [metaPhase]
    by_cases h : fetch (srcBase ++ '/' :: m) = 0
    · simp only [h, ne_eq, not_true_eq_false, if_false, ite_false]
      rw [metaPhase_spec fetch srcBase versionDst rest
        (calls ++ [GsCall.mk (srcBase ++ '/' :: m) (pyJoin versionDst m)])]
      simp only [metaCalls, List.map_cons, firstFailRc, h, if_pos, callsUntilFail]
      cases firstFailRc fetch (List.map (fun m => ⟨srcBase ++ '/' :: m, pyJoin versionDst m⟩) rest) with
      | none => simp
      | some rc => simp
    · simp only [h, ne_eq, not_false_eq_true, if_true, ite_true]
      simp only [metaCalls, List.map_cons, firstFailRc, h, if_neg, callsUntilFail]
      simp

/-- The planned shard-download calls for a list of
`(new index, original index)` pairs, given the original filename of each
original index. -/
def shardCallsOf (srcBase versionDst : PyStr) (nameO : Nat → PyStr)
    (pairs : List (Nat × Nat)) : List GsCall :=
  pairs.map (fun p => ⟨srcBase ++ '/' :: nameO p.2, pyJoin versionDst (nameO p.2)⟩)

/-- The renames the shard loop performs for a list of pairs: one per pair
whose original and new destination paths differ. -/
def shardRenamesOf (versionDst : PyStr) (nameO nameN : Nat → PyStr)
    (pairs : List (Nat × Nat)) : List (PyStr × PyStr) :=
  pairs.filterMap (fun p =>
    if pyJoin versionDst (nameO p.2) ≠ pyJoin versionDst (nameN p.1) then
      some (pyJoin versionDst (nameO p.2), pyJoin versionDst (nameN p.1))
    else none)

theorem shardLoop_ok_of_all_zero (fetch : PyStr → Int) (tmpl pfx srcBase versionDst : PyStr)
    (total newTotal : Nat) (nameO nameN : Nat → PyStr) :
    ∀ (pairs : List (Nat × Nat)) (calls : List GsCall) (renames : List (PyStr × PyStr)),
    (∀ p ∈ pairs,
      pyFormat pfx "train".data "tfrecord".data (shardToken p.2 total) tmpl = some (nameO p.2) ∧
      pyFormat pfx "train".data "tfrecord".data (shardToken p.1 newTotal) tmpl = some (nameN p.1)) →
    (∀ c ∈ shardCallsOf srcBase versionDst nameO pairs, fetch c.src = 0) →
    shardLoop fetch tmpl pfx srcBase versionDst total newTotal pairs calls renames =
      .ok (calls ++ shardCallsOf srcBase versionDst nameO pairs)
        (renames ++ shardRenamesOf versionDst nameO nameN pairs)
  | [], calls, renames, _, _ => by simp [shardLoop, shardCallsOf, shardRenamesOf]
  | (newIdx, origIdx) :: rest, calls, renames, hfmt, hzero => by
    obtain ⟨h1, h2⟩ := hfmt (newIdx, origIdx) (by simp)
    rw [shardLoop, h1, h2]
    have hz : fetch (srcBase ++ '/' :: nameO origIdx) = 0 :=
      hzero ⟨srcBase ++ '/' :: nameO origIdx, pyJoin versionDst (nameO origIdx)⟩
        (by simp [shardCallsOf])
    simp only [hz, ne_eq, not_true_eq_false, if_false, ite_false]
    rw [shardLoop_ok_of_all_zero fetch tmpl pfx srcBase versionDst total newTotal nameO nameN
      rest _ _ (fun p hp => hfmt p (by simp [hp]))
      (fun c hc => hzero c (by simp [shardCallsOf] at hc ⊢; tauto))]
    by_cases heq : pyJoin versionDst (nameO origIdx) = pyJoin versionDst (nameN newIdx)
    · simp [shardCallsOf, shardRenamesOf, heq]
    · simp [shardCallsOf, shardRenamesOf, heq]

theorem shardLoop_fail_spec (fetch : PyStr → Int) (tmpl pfx srcBase versionDst : PyStr)
    (total newTotal : Nat) (nameO nameN : Nat → PyStr) :
    ∀ (pairs : List (Nat × Nat)) (calls : List GsCall) (renames : List (PyStr × PyStr))
    (rc : Int),
    (∀ p ∈ pairs,
      pyFormat pfx "train".data "tfrecord".data (shardToken p.2 total) tmpl = some (nameO p.2) ∧
      pyFormat pfx "train".data "tfrecord".data (shardToken p.1 newTotal) tmpl = some (nameN p.1)) →
    firstFailRc fetch (shardCallsOf srcBase versionDst nameO pairs) = some rc →
    ∃ renames2,
    shardLoop fetch tmpl pfx srcBase versionDst total newTotal pairs calls renames =
      .fail rc (calls ++ callsUntilFail fetch (shardCallsOf srcBase versionDst nameO pairs))
        renames2
  | [], _, _, rc, _, hfail => by simp [shardCallsOf, firstFailRc] at hfail
  | (newIdx, origIdx) :: rest, calls, renames, rc, hfmt, hfail => by
    obtain ⟨h1, h2⟩ := hfmt (newIdx, origIdx) (by simp)
    rw [shardLoop, h1, h2]
    simp only [shardCallsOf, List.map_cons, firstFailRc, callsUntilFail] at hfail ⊢
    by_cases hz : fetch (srcBase ++ '/' :: nameO origIdx) = 0
    · rw [if_pos hz] at hfail
      simp only [hz, ne_eq, not_true_eq_false, if_false, ite_false, if_pos]
      obtain ⟨renames2, hr⟩ := shardLoop_fail_spec fetch tmpl pfx srcBase versionDst total
        newTotal nameO nameN rest
        (calls ++ [⟨srcBase ++ '/' :: nameO origIdx, pyJoin versionDst (nameO origIdx)⟩])
        (if pyJoin versionDst (nameO origIdx) ≠ pyJoin versionDst (nameN newIdx) then
          renames ++ [(pyJoin versionDst (nameO origIdx), pyJoin versionDst (nameN newIdx))]
        else renames)
        rc (fun p hp => hfmt p (by simp [hp])) hfail
      refine ⟨renames2, ?_⟩
      rw [hr]
      simp [shardCallsOf]
    · rw [if_neg hz] at hfail
      simp only [Option.some_inj] at hfail
      subst hfail
      simp only [hz, ne_eq, not_false_eq_true, if_true, ite_true, if_neg]
      exact ⟨renames, by simp⟩

theorem zip_self_eq_map {α : Type} (l : List α) : l.zip l = l.map (fun a => (a, a)) := by
  induction l with
  | nil => rfl
  | cons a rest ih => simp [List.zip_cons_cons, ih]

theorem enum_range'_zero (k : Nat) :
    (List.range' 0 k).enum = (List.range k).map (fun i => (i, i)) := by
  rw [List.enum_eq_zip_range, List.length_range', ← List.range_eq_range', zip_self_eq_map]

/-- C3: on a successful selective run with `k` selected shards, each shard
`i < k` is downloaded under its original name (template instantiated at
shard token `{i:05d}-of-{total:05d}`) and, whenever that differs from the
new name (token `{i:05d}-of-{k:05d}`), renamed to the new name; the new
indices are contiguous and increase in selection order. -/
theorem downloadSelective_downloads_then_renames_contiguous (fetch : PyStr → Int)
    (pre1 post1 : List (PyStr × JValue)) (pre2 post2 : List JValue)
    (pre3 post3 : List (PyStr × JValue)) (lens : List JValue) (tmpl : PyStr)
    (srcBase dst dsName version : PyStr) (maxE : Int) (fnames : Nat → Nat → PyStr)
    (hpre1 : ∀ kv ∈ pre1, kv.1 ≠ "splits".data)
    (hpre2 : ∀ s ∈ pre2, notTrainObj s)
    (hpre3 : ∀ kv ∈ pre3, kv.1 ≠ "shardLengths".data)
    (hts : jEqStr ((jLookup (pre3 ++ ("shardLengths".data, JValue.arr lens) :: post3)
      "name".data).getD JValue.null) "train".data = true)
    (hlens : lens ≠ [])
    (htmpl : jLookup (pre3 ++ ("shardLengths".data, JValue.arr lens) :: post3)
      "filepathTemplate".data = some (JValue.str tmpl))
    (htmplNe : tmpl ≠ [])
    (hfmt : ∀ i < lens.length, ∀ n ≤ lens.length,
      pyFormat (datasetPfx dsName) "train".data "tfrecord".data (shardToken i n) tmpl =
        some (fnames i n))
    (houtcome : (downloadSelective fetch
        (some (mkInfoDoc pre1 post1
          (pre2 ++ mkTrainSplit pre3 post3 (JValue.arr lens) :: post2)))
        srcBase dst dsName version maxE).outcome = some 0) :
    ∃ k total, planShards lens 0 maxE 0 = some (List.range k, total) ∧ k ≤ lens.length ∧
      (downloadSelective fetch
        (some (mkInfoDoc pre1 post1
          (pre2 ++ mkTrainSplit pre3 post3 (JValue.arr lens) :: post2)))
        srcBase dst dsName version maxE).calls =
        metaCalls srcBase (pyJoin dst version) metadataFiles ++
          (List.range k).map (fun i =>
            GsCall.mk (srcBase ++ '/' :: fnames i lens.length)
              (pyJoin (pyJoin dst version) (fnames i lens.length))) ∧
      (downloadSelective fetch
        (some (mkInfoDoc pre1 post1
          (pre2 ++ mkTrainSplit pre3 post3 (JValue.arr lens) :: post2)))
        srcBase dst dsName version maxE).renames =
        (List.range k).filterMap (fun i =>
          if pyJoin (pyJoin dst version) (fnames i lens.length) ≠
              pyJoin (pyJoin dst version) (fnames i k) then
            some (pyJoin (pyJoin dst version) (fnames i lens.length),
              pyJoin (pyJoin dst version) (fnames i k))
          else none) := by
  rw [downloadSelective_runs fetch pre1 post1 pre2 post2 pre3 post3 lens tmpl
    srcBase dst dsName version maxE hpre1 hpre2 hpre3 hts hlens htmpl htmplNe] at houtcome ⊢
  have hmeta := metaPhase_spec fetch srcBase (pyJoin dst version) metadataFiles []
  cases hmfail : firstFailRc fetch (metaCalls srcBase (pyJoin dst version) metadataFiles) with
  | some rc =>
    rw [hmfail] at hmeta
    have hval : runAfterNav fetch
        (mkInfoDoc pre1 post1 (pre2 ++ mkTrainSplit pre3 post3 (JValue.arr lens) :: post2))
        lens tmpl srcBase dst dsName version maxE =
        ⟨some rc, [] ++ callsUntilFail fetch
          (metaCalls srcBase (pyJoin dst version) metadataFiles), [], none⟩ := by
      simp only [runAfterNav, hmeta]
    rw [hval] at houtcome
    simp only [Option.some_inj] at houtcome
    exact absurd (houtcome ▸ firstFailRc_ne_zero fetch _ rc hmfail) (by simp)
  | none =>
    rw [hmfail] at hmeta
    cases hplan : planShards lens 0 maxE 0 with
    | none =>
      have hval : runAfterNav fetch
          (mkInfoDoc pre1 post1 (pre2 ++ mkTrainSplit pre3 post3 (JValue.arr lens) :: post2))
          lens tmpl srcBase dst dsName version maxE =
          ⟨none, [] ++ metaCalls srcBase (pyJoin dst version) metadataFiles, [], none⟩ := by
        simp only [runAfterNav, hmeta, hplan]
      rw [hval] at houtcome
      simp at houtcome
    | some p =>
      obtain ⟨needed, eps⟩ := p
      obtain ⟨k, hk, hshape⟩ := planShards_success_shape lens 0 maxE 0 needed eps hplan
      subst hshape
      have hpairs : (List.range' 0 k).enum = (List.range k).map (fun i => (i, i)) :=
        enum_range'_zero k
      have hlen : (List.range' 0 k).length = k := by simp
      have hfmtp : ∀ p ∈ (List.range' 0 k).enum,
          pyFormat (datasetPfx dsName) "train".data "tfrecord".data
            (shardToken p.2 lens.length) tmpl = some (fnames p.2 lens.length) ∧
          pyFormat (datasetPfx dsName) "train".data "tfrecord".data
            (shardToken p.1 ((List.range' 0 k).length)) tmpl =
            some (fnames p.1 ((List.range' 0 k).length)) := by
        intro p hp
        rw [hpairs] at hp
        simp only [List.mem_map, List.mem_range] at hp
        obtain ⟨i, hik, hpi⟩ := hp
        subst hpi
        have hik2 : i < lens.length := by omega
        exact ⟨hfmt i hik2 lens.length (by omega), by rw [hlen]; exact hfmt i hik2 k hk⟩
      cases hsfail : firstFailRc fetch (shardCallsOf srcBase (pyJoin dst version)
          (fun i => fnames i lens.length) ((List.range' 0 k).enum)) with
      | some rc =>
        obtain ⟨renames2, hloop⟩ := shardLoop_fail_spec fetch tmpl (datasetPfx dsName)
          srcBase (pyJoin dst version) lens.length ((List.range' 0 k).length)
          (fun i => fnames i lens.length) (fun i => fnames i ((List.range' 0 k).length))
          ((List.range' 0 k).enum) (metaCalls srcBase (pyJoin dst version) metadataFiles) []
          rc hfmtp hsfail
        have hval : runAfterNav fetch
            (mkInfoDoc pre1 post1 (pre2 ++ mkTrainSplit pre3 post3 (JValue.arr lens) :: post2))
            lens tmpl srcBase dst dsName version maxE =
            ⟨some rc, metaCalls srcBase (pyJoin dst version) metadataFiles ++
              callsUntilFail fetch (shardCallsOf srcBase (pyJoin dst version)
                (fun i => fnames i lens.length) ((List.range' 0 k).enum)), renames2, none⟩ := by
          simp only [runAfterNav, hmeta, hplan, List.nil_append, hloop]
        rw [hval] at houtcome
        simp only [Option.some_inj] at houtcome
        exact absurd (houtcome ▸ firstFailRc_ne_zero fetch _ rc hsfail) (by simp)
      | none =>
        have hallz : ∀ c ∈ shardCallsOf srcBase (pyJoin dst version)
            (fun i => fnames i lens.length) ((List.range' 0 k).enum), fetch c.src = 0 :=
          (firstFailRc_eq_none_iff fetch _).mp hsfail
        have hloop := shardLoop_ok_of_all_zero fetch tmpl (datasetPfx dsName)
          srcBase (pyJoin dst version) lens.length ((List.range' 0 k).length)
          (fun i => fnames i lens.length) (fun i => fnames i ((List.range' 0 k).length))
          ((List.range' 0 k).enum) (metaCalls srcBase (pyJoin dst version) metadataFiles) []
          hfmtp hallz
        have hsel : (List.range' 0 k).mapM (jIndex? (JValue.arr lens)) =
            some (lens.take k) := by
          have := mapM_getElem_range' lens 0 k (by omega)
          simpa using this
        have hval : runAfterNav fetch
            (mkInfoDoc pre1 post1 (pre2 ++ mkTrainSplit pre3 post3 (JValue.arr lens) :: post2))
            lens tmpl srcBase dst dsName version maxE =
            ⟨some 0,
              metaCalls srcBase (pyJoin dst version) metadataFiles ++
                shardCallsOf srcBase (pyJoin dst version)
                  (fun i => fnames i lens.length) ((List.range' 0 k).enum),
              [] ++ shardRenamesOf (pyJoin dst version)
                (fun i => fnames i lens.length) (fun i => fnames i ((List.range' 0 k).length))
                ((List.range' 0 k).enum),
              some (updateDatasetInfo
                (mkInfoDoc pre1 post1
                  (pre2 ++ mkTrainSplit pre3 post3 (JValue.arr lens) :: post2))
                (JValue.arr (lens.take k)))⟩ := by
          simp only [runAfterNav, hmeta, hplan, List.nil_append, hloop, hsel]
        rw [hval]
        refine ⟨k, eps, ?_, hk, ?_, ?_⟩
        · rw [List.range_eq_range']
          all_goals exact hplan
        · simp only [shardCallsOf, hpairs, List.map_map]
          rfl
        · simp only [shardRenamesOf, hpairs, hlen, List.filterMap_map, List.nil_append]
          rfl

/-- The concrete dataset_info document used by witnesses. -/
def wDoc : JValue :=
  mkInfoDoc wPre1 wPost1 (wPre2 ++ mkTrainSplit wPre3 wPost3 (JValue.arr wLens) :: [])

/-- The filenames the standard template `wTmpl` produces for dataset
`foo` at a shard index and count. -/
def wFnames (i n : Nat) : PyStr :=
  "foo-train.tfrecord-".data ++ pad5 i ++ "-of-".data ++ pad5 n

/-- Witness for C3 at the concrete two-shard dataset with a budget of five
episodes: one shard selected, downloaded as `…-00000-of-00002` and renamed
to `…-00000-of-00001`. -/
theorem downloadSelective_downloads_then_renames_contiguous_witness :
    ((∀ kv ∈ wPre1, kv.1 ≠ "splits".data) ∧
     (∀ s ∈ wPre2, notTrainObj s) ∧
     (∀ kv ∈ wPre3, kv.1 ≠ "shardLengths".data) ∧
     jEqStr ((jLookup (wPre3 ++ ("shardLengths".data, JValue.arr wLens) :: wPost3)
       "name".data).getD JValue.null) "train".data = true ∧
     wLens ≠ [] ∧
     jLookup (wPre3 ++ ("shardLengths".data, JValue.arr wLens) :: wPost3)
       "filepathTemplate".data = some (JValue.str wTmpl) ∧
     wTmpl ≠ [] ∧
     (∀ i < wLens.length, ∀ n ≤ wLens.length,
       pyFormat (datasetPfx "foo".data) "train".data "tfrecord".data (shardToken i n) wTmpl =
         some (wFnames i n)) ∧
     (downloadSelective (fun _ => 0) (some wDoc)
        "gs://x".data "/d".data "foo".data "0.1.0".data 5).outcome = some 0) ∧
    (∃ k total, planShards wLens 0 5 0 = some (List.range k, total) ∧ k ≤ wLens.length ∧
      (downloadSelective (fun _ => 0) (some wDoc)
        "gs://x".data "/d".data "foo".data "0.1.0".data 5).calls =
        metaCalls "gs://x".data (pyJoin "/d".data "0.1.0".data) metadataFiles ++
          (List.range k).map (fun i =>
            GsCall.mk ("gs://x".data ++ '/' :: wFnames i wLens.length)
              (pyJoin (pyJoin "/d".data "0.1.0".data) (wFnames i wLens.length))) ∧
      (downloadSelective (fun _ => 0) (some wDoc)
        "gs://x".data "/d".data "foo".data "0.1.0".data 5).renames =
        (List.range k).filterMap (fun i =>
          if pyJoin (pyJoin "/d".data "0.1.0".data) (wFnames i wLens.length) ≠
              pyJoin (pyJoin "/d".data "0.1.0".data) (wFnames i k) then
            some (pyJoin (pyJoin "/d".data "0.1.0".data) (wFnames i wLens.length),
              pyJoin (pyJoin "/d".data "0.1.0".data) (wFnames i k))
          else none)) :=
  ⟨⟨by decide,
    by
      intro s hs
      rw [wPre2, List.mem_singleton] at hs
      subst hs
      exact ⟨_, rfl, by decide⟩,
    by decide, by decide, by simp [wLens], by rfl, by decide, by decide, by rfl⟩,
   downloadSelective_downloads_then_renames_contiguous (fun _ => 0)
     wPre1 wPost1 wPre2 [] wPre3 wPost3 wLens wTmpl
     "gs://x".data "/d".data "foo".data "0.1.0".data 5 wFnames
     (by decide)
     (by
       intro s hs
       rw [wPre2, List.mem_singleton] at hs
       subst hs
       exact ⟨_, rfl, by decide⟩)
     (by decide) (by decide) (by simp [wLens]) (by rfl) (by decide) (by decide) (by rfl)⟩

theorem firstFailRc_append_of_some (fetch : PyStr → Int) (a b : List GsCall) (rc : Int)
    (h : firstFailRc fetch a = some rc) : firstFailRc fetch (a ++ b) = some rc := by
  induction a with
  | nil => simp [firstFailRc] at h
  | cons c rest ih =>
    by_cases hc : fetch c.src = 0
    · rw [firstFailRc, if_pos hc] at h
      simp only [List.cons_append, firstFailRc, if_pos hc]
      exact ih h
    · rw [firstFailRc, if_neg hc] at h
      simp only [List.cons_append, firstFailRc, if_neg hc]
      exact h

theorem callsUntilFail_append_of_some (fetch : PyStr → Int) (a b : List GsCall) (rc : Int)
    (h : firstFailRc fetch a = some rc) :
    callsUntilFail fetch (a ++ b) = callsUntilFail fetch a := by
  induction a with
  | nil => simp [firstFailRc] at h
  | cons c rest ih =>
    by_cases hc : fetch c.src = 0
    · rw [firstFailRc, if_pos hc] at h
      simp only [List.cons_append, callsUntilFail, if_pos hc, List.append_eq]
      rw [ih h]
    · simp only [List.cons_append, callsUntilFail, if_neg hc]

theorem enum_range (k : Nat) :
    (List.range k).enum = (List.range k).map (fun i => (i, i)) := by
  rw [List.enum_eq_zip_range, List.length_range, zip_self_eq_map]

/-- The planned whole-dataset calls of the `max_episodes is None` branch of
`download_datasets`. -/
def dsFullCalls (outDir : PyStr) (names : List PyStr) : List GsCall :=
  names.map (fun n => GsCall.mk (gsBase n) (pyJoin outDir n))

theorem downloadDatasetsFull_spec (fetch : PyStr → Int) (outDir : PyStr) :
    ∀ (names : List PyStr) (calls : List GsCall),
    downloadDatasetsFull fetch outDir names calls =
      ((firstFailRc fetch (dsFullCalls outDir names)).getD 0,
        calls ++ callsUntilFail fetch (dsFullCalls outDir names))
  | [], calls => by simp [downloadDatasetsFull, dsFullCalls, firstFailRc, callsUntilFail]
  | name :: rest, calls => by
    rw [downloadDatasetsFull]
    by_cases h : fetch (gsBase name) = 0
    · simp only [h, ne_eq, not_true_eq_false, if_false, ite_false]
      rw [downloadDatasetsFull_spec fetch outDir rest
        (calls ++ [GsCall.mk (gsBase name) (pyJoin outDir name)])]
      simp only [dsFullCalls, List.map_cons, firstFailRc, callsUntilFail, h, if_pos]
      simp
    · simp only [h, ne_eq, not_false_eq_true, if_true, ite_true]
      simp only [dsFullCalls, List.map_cons, firstFailRc, callsUntilFail, h, if_neg]
      simp

/-- C4: under a well-formed downloaded document, `_download_selective`
issues its gsutil calls in planned order with no retry — the calls
performed are exactly the planned list cut at the first failing call, the
return code is that call's exit code (`0` on full success), and when the
planned source paths are pairwise distinct each file is fetched at most
once.  The whole-dataset branch of `download_datasets` behaves the same
way with one recursive copy per dataset. -/
theorem downloadSelective_single_call_per_file_fail_fast (fetch : PyStr → Int)
    (pre1 post1 : List (PyStr × JValue)) (pre2 post2 : List JValue)
    (pre3 post3 : List (PyStr × JValue)) (lens : List JValue) (tmpl : PyStr)
    (srcBase dst dsName version : PyStr) (maxE : Int) (fnames : Nat → Nat → PyStr)
    (k : Nat) (total : Int)
    (hpre1 : ∀ kv ∈ pre1, kv.1 ≠ "splits".data)
    (hpre2 : ∀ s ∈ pre2, notTrainObj s)
    (hpre3 : ∀ kv ∈ pre3, kv.1 ≠ "shardLengths".data)
    (hts : jEqStr ((jLookup (pre3 ++ ("shardLengths".data, JValue.arr lens) :: post3)
      "name".data).getD JValue.null) "train".data = true)
    (hlens : lens ≠ [])
    (htmpl : jLookup (pre3 ++ ("shardLengths".data, JValue.arr lens) :: post3)
      "filepathTemplate".data = some (JValue.str tmpl))
    (htmplNe : tmpl ≠ [])
    (hfmt : ∀ i < lens.length, ∀ n ≤ lens.length,
      pyFormat (datasetPfx dsName) "train".data "tfrecord".data (shardToken i n) tmpl =
        some (fnames i n))
    (hplan : planShards lens 0 maxE 0 = some (List.range k, total))
    (hk : k ≤ lens.length) :
    (downloadSelective fetch
      (some (mkInfoDoc pre1 post1
        (pre2 ++ mkTrainSplit pre3 post3 (JValue.arr lens) :: post2)))
      srcBase dst dsName version maxE).calls =
      callsUntilFail fetch
        (metaCalls srcBase (pyJoin dst version) metadataFiles ++
          (List.range k).map (fun i =>
            GsCall.mk (srcBase ++ '/' :: fnames i lens.length)
              (pyJoin (pyJoin dst version) (fnames i lens.length)))) ∧
    (downloadSelective fetch
      (some (mkInfoDoc pre1 post1
        (pre2 ++ mkTrainSplit pre3 post3 (JValue.arr lens) :: post2)))
      srcBase dst dsName version maxE).outcome =
      some ((firstFailRc fetch
        (metaCalls srcBase (pyJoin dst version) metadataFiles ++
          (List.range k).map (fun i =>
            GsCall.mk (srcBase ++ '/' :: fnames i lens.length)
              (pyJoin (pyJoin dst version) (fnames i lens.length))))).getD 0) ∧
    (((metaCalls srcBase (pyJoin dst version) metadataFiles ++
        (List.range k).map (fun i =>
          GsCall.mk (srcBase ++ '/' :: fnames i lens.length)
            (pyJoin (pyJoin dst version) (fnames i lens.length)))).map GsCall.src).Nodup →
      (((downloadSelective fetch
        (some (mkInfoDoc pre1 post1
          (pre2 ++ mkTrainSplit pre3 post3 (JValue.arr lens) :: post2)))
        srcBase dst dsName version maxE).calls.map GsCall.src).Nodup)) ∧
    (∀ (fetch2 : PyStr → Int) (outDir : PyStr) (names : List PyStr),
      downloadDatasetsFull fetch2 outDir names [] =
        ((firstFailRc fetch2 (dsFullCalls outDir names)).getD 0,
          callsUntilFail fetch2 (dsFullCalls outDir names))) := by
  have hfull : ∀ (fetch2 : PyStr → Int) (outDir : PyStr) (names : List PyStr),
      downloadDatasetsFull fetch2 outDir names [] =
        ((firstFailRc fetch2 (dsFullCalls outDir names)).getD 0,
          callsUntilFail fetch2 (dsFullCalls outDir names)) := by
    intro fetch2 outDir names
    rw [downloadDatasetsFull_spec fetch2 outDir names []]
    simp
  rw [downloadSelective_runs fetch pre1 post1 pre2 post2 pre3 post3 lens tmpl
    srcBase dst dsName version maxE hpre1 hpre2 hpre3 hts hlens htmpl htmplNe]
  have hmeta := metaPhase_spec fetch srcBase (pyJoin dst version) metadataFiles []
  have hpairs : (List.range k).enum = (List.range k).map (fun i => (i, i)) := enum_range k
  have hlenr : (List.range k).length = k := by simp
  have hshardcalls : shardCallsOf srcBase (pyJoin dst version)
      (fun i => fnames i lens.length) ((List.range k).enum) =
      (List.range k).map (fun i =>
        GsCall.mk (srcBase ++ '/' :: fnames i lens.length)
          (pyJoin (pyJoin dst version) (fnames i lens.length))) := by
    simp only [shardCallsOf, hpairs, List.map_map]
    rfl
  have hfmtp : ∀ p ∈ (List.range k).enum,
      pyFormat (datasetPfx dsName) "train".data "tfrecord".data
        (shardToken p.2 lens.length) tmpl = some (fnames p.2 lens.length) ∧
      pyFormat (datasetPfx dsName) "train".data "tfrecord".data
        (shardToken p.1 ((List.range k).length)) tmpl =
        some (fnames p.1 ((List.range k).length)) := by
    intro p hp
    rw [hpairs] at hp
    simp only [List.mem_map, List.mem_range] at hp
    obtain ⟨i, hik, hpi⟩ := hp
    subst hpi
    have hik2 : i < lens.length := by omega
    exact ⟨hfmt i hik2 lens.length (by omega), by rw [hlenr]; exact hfmt i hik2 k hk⟩
  cases hmfail : firstFailRc fetch (metaCalls srcBase (pyJoin dst version) metadataFiles) with
  | some rc =>
    rw [hmfail] at hmeta
    have hval : runAfterNav fetch
        (mkInfoDoc pre1 post1 (pre2 ++ mkTrainSplit pre3 post3 (JValue.arr lens) :: post2))
        lens tmpl srcBase dst dsName version maxE =
        ⟨some rc, [] ++ callsUntilFail fetch
          (metaCalls srcBase (pyJoin dst version) metadataFiles), [], none⟩ := by
      simp only [runAfterNav, hmeta]
    rw [hval]
    have hcuf := callsUntilFail_append_of_some fetch
      (metaCalls srcBase (pyJoin dst version) metadataFiles)
      ((List.range k).map (fun i =>
        GsCall.mk (srcBase ++ '/' :: fnames i lens.length)
          (pyJoin (pyJoin dst version) (fnames i lens.length)))) rc hmfail
    have hffr := firstFailRc_append_of_some fetch
      (metaCalls srcBase (pyJoin dst version) metadataFiles)
      ((List.range k).map (fun i =>
        GsCall.mk (srcBase ++ '/' :: fnames i lens.length)
          (pyJoin (pyJoin dst version) (fnames i lens.length)))) rc hmfail
    refine ⟨by rw [hcuf]; simp, by rw [hffr]; simp, ?_, hfull⟩
    intro hnodup
    simp only [List.nil_append]
    obtain ⟨n, hn⟩ := callsUntilFail_eq_take fetch
      (metaCalls srcBase (pyJoin dst version) metadataFiles)
    rw [hn, List.map_take]
    have hmn : ((metaCalls srcBase (pyJoin dst version) metadataFiles).map GsCall.src).Nodup :=
      List.Nodup.sublist ((List.sublist_append_left _ _).map _) hnodup
    exact List.Nodup.sublist (List.take_sublist _ _) hmn
  | none =>
    rw [hmfail] at hmeta
    cases hsfail : firstFailRc fetch (shardCallsOf srcBase (pyJoin dst version)
        (fun i => fnames i lens.length) ((List.range k).enum)) with
    | some rc =>
      obtain ⟨renames2, hloop⟩ := shardLoop_fail_spec fetch tmpl (datasetPfx dsName)
        srcBase (pyJoin dst version) lens.length ((List.range k).length)
        (fun i => fnames i lens.length) (fun i => fnames i ((List.range k).length))
        ((List.range k).enum) (metaCalls srcBase (pyJoin dst version) metadataFiles) []
        rc hfmtp hsfail
      have hval : runAfterNav fetch
          (mkInfoDoc pre1 post1 (pre2 ++ mkTrainSplit pre3 post3 (JValue.arr lens) :: post2))
          lens tmpl srcBase dst dsName version maxE =
          ⟨some rc, metaCalls srcBase (pyJoin dst version) metadataFiles ++
            callsUntilFail fetch (shardCallsOf srcBase (pyJoin dst version)
              (fun i => fnames i lens.length) ((List.range k).enum)), renames2, none⟩ := by
        simp only [runAfterNav, hmeta, hplan, List.nil_append, hloop]
      rw [hval]
      rw [hshardcalls] at hsfail
      have hcuf := callsUntilFail_append_of_none fetch
        (metaCalls srcBase (pyJoin dst version) metadataFiles)
        ((List.range k).map (fun i =>
          GsCall.mk (srcBase ++ '/' :: fnames i lens.length)
            (pyJoin (pyJoin dst version) (fnames i lens.length)))) hmfail
      have hffr := firstFailRc_append_of_none fetch
        (metaCalls srcBase (pyJoin dst version) metadataFiles)
        ((List.range k).map (fun i =>
          GsCall.mk (srcBase ++ '/' :: fnames i lens.length)
            (pyJoin (pyJoin dst version) (fnames i lens.length)))) hmfail

      refine ⟨by rw [hcuf, ← hshardcalls], by rw [hffr, hsfail]; rfl, ?_, hfull⟩
      intro hnodup
      rw [show (⟨some rc, metaCalls srcBase (pyJoin dst version) metadataFiles ++
            callsUntilFail fetch (shardCallsOf srcBase (pyJoin dst version)
              (fun i => fnames i lens.length) ((List.range k).enum)), renames2,
            none⟩ : DlResult).calls =
          metaCalls srcBase (pyJoin dst version) metadataFiles ++
            callsUntilFail fetch (shardCallsOf srcBase (pyJoin dst version)
              (fun i => fnames i lens.length) ((List.range k).enum)) from rfl]
      rw [hshardcalls]
      rw [← callsUntilFail_append_of_none fetch _ _ hmfail]
      obtain ⟨n, hn⟩ := callsUntilFail_eq_take fetch
        (metaCalls srcBase (pyJoin dst version) metadataFiles ++
          (List.range k).map (fun i =>
            GsCall.mk (srcBase ++ '/' :: fnames i lens.length)
              (pyJoin (pyJoin dst version) (fnames i lens.length))))
      rw [hn, List.map_take]
      exact List.Nodup.sublist (List.take_sublist _ _) hnodup
    | none =>
      have hallz : ∀ c ∈ shardCallsOf srcBase (pyJoin dst version)
          (fun i => fnames i lens.length) ((List.range k).enum), fetch c.src = 0 :=
        (firstFailRc_eq_none_iff fetch _).mp hsfail
      have hloop := shardLoop_ok_of_all_zero fetch tmpl (datasetPfx dsName)
        srcBase (pyJoin dst version) lens.length ((List.range k).length)
        (fun i => fnames i lens.length) (fun i => fnames i ((List.range k).length))
        ((List.range k).enum) (metaCalls srcBase (pyJoin dst version) metadataFiles) []
        hfmtp hallz
      have hsel : (List.range k).mapM (jIndex? (JValue.arr lens)) =
          some (lens.take k) := by
        have := mapM_getElem_range' lens 0 k (by omega)
        rw [List.range_eq_range']
        simpa using this
      have hval : runAfterNav fetch
          (mkInfoDoc pre1 post1 (pre2 ++ mkTrainSplit pre3 post3 (JValue.arr lens) :: post2))
          lens tmpl srcBase dst dsName version maxE =
          ⟨some 0,
            metaCalls srcBase (pyJoin dst version) metadataFiles ++
              shardCallsOf srcBase (pyJoin dst version)
                (fun i => fnames i lens.length) ((List.range k).enum),
            [] ++ shardRenamesOf (pyJoin dst version)
              (fun i => fnames i lens.length) (fun i => fnames i ((List.range k).length))
              ((List.range k).enum),
            some (updateDatasetInfo
              (mkInfoDoc pre1 post1
                (pre2 ++ mkTrainSplit pre3 post3 (JValue.arr lens) :: post2))
              (JValue.arr (lens.take k)))⟩ := by
        simp only [runAfterNav, hmeta, hplan, List.nil_append, hloop, hsel]
      rw [hval]
      rw [hshardcalls] at hallz ⊢
      have hallz2 : ∀ c ∈ metaCalls srcBase (pyJoin dst version) metadataFiles ++
          (List.range k).map (fun i =>
            GsCall.mk (srcBase ++ '/' :: fnames i lens.length)
              (pyJoin (pyJoin dst version) (fnames i lens.length))), fetch c.src = 0 := by
        intro c hc
        rcases List.mem_append.mp hc with h | h
        · exact (firstFailRc_eq_none_iff fetch _).mp hmfail c h
        · exact hallz c h
      have hffr : firstFailRc fetch (metaCalls srcBase (pyJoin dst version) metadataFiles ++
          (List.range k).map (fun i =>
            GsCall.mk (srcBase ++ '/' :: fnames i lens.length)
              (pyJoin (pyJoin dst version) (fnames i lens.length)))) = none :=
        (firstFailRc_eq_none_iff fetch _).mpr hallz2
      refine ⟨by rw [callsUntilFail_of_all_zero fetch _ hallz2], by rw [hffr]; rfl,
        fun hnodup => ?_, hfull⟩
      rw [show (⟨some 0, metaCalls srcBase (pyJoin dst version) metadataFiles ++
          (List.range k).map (fun i =>
            GsCall.mk (srcBase ++ '/' :: fnames i lens.length)
              (pyJoin (pyJoin dst version) (fnames i lens.length))), _, _⟩ : DlResult).calls =
        metaCalls srcBase (pyJoin dst version) metadataFiles ++
          (List.range k).map (fun i =>
            GsCall.mk (srcBase ++ '/' :: fnames i lens.length)
              (pyJoin (pyJoin dst version) (fnames i lens.length))) from rfl]
      exact hnodup

/-- Witness for C4 at the concrete two-shard dataset, budget five, all
fetches succeeding. -/
theorem downloadSelective_single_call_per_file_fail_fast_witness :
    ((∀ kv ∈ wPre1, kv.1 ≠ "splits".data) ∧
     (∀ s ∈ wPre2, notTrainObj s) ∧
     (∀ kv ∈ wPre3, kv.1 ≠ "shardLengths".data) ∧
     jEqStr ((jLookup (wPre3 ++ ("shardLengths".data, JValue.arr wLens) :: wPost3)
       "name".data).getD JValue.null) "train".data = true ∧
     wLens ≠ [] ∧
     jLookup (wPre3 ++ ("shardLengths".data, JValue.arr wLens) :: wPost3)
       "filepathTemplate".data = some (JValue.str wTmpl) ∧
     wTmpl ≠ [] ∧
     (∀ i < wLens.length, ∀ n ≤ wLens.length,
       pyFormat (datasetPfx "foo".data) "train".data "tfrecord".data (shardToken i n) wTmpl =
         some (wFnames i n)) ∧
     planShards wLens 0 5 0 = some (List.range 1, 5) ∧
     1 ≤ wLens.length) ∧
    ((downloadSelective (fun _ => 0) (some wDoc)
        "gs://x".data "/d".data "foo".data "0.1.0".data 5).calls =
      callsUntilFail (fun _ => 0)
        (metaCalls "gs://x".data (pyJoin "/d".data "0.1.0".data) metadataFiles ++
          (List.range 1).map (fun i =>
            GsCall.mk ("gs://x".data ++ '/' :: wFnames i wLens.length)
              (pyJoin (pyJoin "/d".data "0.1.0".data) (wFnames i wLens.length)))) ∧
     (downloadSelective (fun _ => 0) (some wDoc)
        "gs://x".data "/d".data "foo".data "0.1.0".data 5).outcome =
      some ((firstFailRc (fun _ => 0)
        (metaCalls "gs://x".data (pyJoin "/d".data "0.1.0".data) metadataFiles ++
          (List.range 1).map (fun i =>
            GsCall.mk ("gs://x".data ++ '/' :: wFnames i wLens.length)
              (pyJoin (pyJoin "/d".data "0.1.0".data) (wFnames i wLens.length))))).getD 0) ∧
     (((metaCalls "gs://x".data (pyJoin "/d".data "0.1.0".data) metadataFiles ++
         (List.range 1).map (fun i =>
           GsCall.mk ("gs://x".data ++ '/' :: wFnames i wLens.length)
             (pyJoin (pyJoin "/d".data "0.1.0".data) (wFnames i wLens.length)))).map
         GsCall.src).Nodup →
       (((downloadSelective (fun _ => 0) (some wDoc)
         "gs://x".data "/d".data "foo".data "0.1.0".data 5).calls.map GsCall.src).Nodup)) ∧
     (∀ (fetch2 : PyStr → Int) (outDir : PyStr) (names : List PyStr),
       downloadDatasetsFull fetch2 outDir names [] =
         ((firstFailRc fetch2 (dsFullCalls outDir names)).getD 0,
           callsUntilFail fetch2 (dsFullCalls outDir names)))) :=
  ⟨⟨by decide,
    by
      intro s hs
      rw [wPre2, List.mem_singleton] at hs
      subst hs
      exact ⟨_, rfl, by decide⟩,
    by decide, by decide, by simp [wLens], by rfl, by decide, by decide, by decide, by decide⟩,
   downloadSelective_single_call_per_file_fail_fast (fun _ => 0)
     wPre1 wPost1 wPre2 [] wPre3 wPost3 wLens wTmpl
     "gs://x".data "/d".data "foo".data "0.1.0".data 5 wFnames 1 5
     (by decide)
     (by
       intro s hs
       rw [wPre2, List.mem_singleton] at hs
       subst hs
       exact ⟨_, rfl, by decide⟩)
     (by decide) (by decide) (by simp [wLens]) (by rfl) (by decide) (by decide)
     (by decide) (by decide)⟩

/-- Substring test (`needle in hay` on Python strings). -/
def strContainsSub (hay needle : PyStr) : Bool :=
  hay.tails.any (fun t => needle.isPrefixOf t)

/-- Python `s.lower()` for the ASCII key names at hand. -/
def pyLower (s : PyStr) : PyStr := s.map Char.toLower

/-- The image-like observation keys of `_select_image_key_interactively`
(export_videos.py lines 28-31): keys whose lowered name contains
`"image"` or `"rgb"`. -/
def imageKeysOf (obsKeys : List PyStr) : List PyStr :=
  obsKeys.filter (fun k =>
    strContainsSub (pyLower k) "image".data || strContainsSub (pyLower k) "rgb".data)

/-- Translation of `_select_image_key_interactively` (export_videos.py
lines 25-78) in the non-interactive environment (`sys.stdin.isatty()` or
`sys.stdout.isatty()` false, as when run without a terminal): no image-like
key gives `None`; a unique image-like key is returned directly; an
in-range pre-selected 1-based choice picks that key; otherwise the first
image-like key is used. -/
def selectImageKey (obsKeys : List PyStr) (preChoice : Option Int) : Option PyStr :=
  let image_keys := imageKeysOf obsKeys
  if image_keys.isEmpty then none
  else if image_keys.length = 1 then some (image_keys.getD 0 [])
  else
    match preChoice with
    | some c =>
      if 1 ≤ c ∧ c ≤ (image_keys.length : Int) then some (image_keys.getD (c - 1).toNat [])
      else some (image_keys.getD 0 [])
    | none => some (image_keys.getD 0 [])

/-- The per-episode loop of `export_videos` (export_videos.py lines
140-153): episodes arrive enumerated, the loop breaks once `exported`
episodes have reached `max_episodes`, and each non-skipped iteration
exports episode `ep_idx` and increments `exported`. -/
def exportLoop {ε : Type} : List (Nat × ε) → Int → Int → List (Nat × ε)
  | [], _, _ => []
  | (idx, ep) :: rest, exported, maxEpisodes =>
    if exported ≥ maxEpisodes then []
    else (idx, ep) :: exportLoop rest (exported + 1) maxEpisodes

/-- The episodes `export_videos` exports for one dataset, as
`(ep_idx, episode)` pairs in export order. -/
def exportEpisodes {ε : Type} (episodes : List ε) (maxEpisodes : Int) : List (Nat × ε) :=
  exportLoop episodes.enum 0 maxEpisodes

/-- The per-dataset behaviour of `export_videos` after the dataset
directory has been found (export_videos.py lines 108-153): when the
requested display key is absent, an image key is selected (skipping the
dataset when none exists), then the bounded episode loop runs.  Returns
the key used and the exported episodes, or `none` when the dataset is
skipped. -/
def exportDataset {ε : Type} (obsKeys : List PyStr) (displayKey : PyStr)
    (preChoice : Option Int) (episodes : List ε) (maxEpisodes : Int) :
    Option (PyStr × List (Nat × ε)) :=
  if displayKey ∈ obsKeys then some (displayKey, exportEpisodes episodes maxEpisodes)
  else
    match selectImageKey obsKeys preChoice with
    | some k => some (k, exportEpisodes episodes maxEpisodes)
    | none => none

theorem exportLoop_eq_take {ε : Type} :
    ∀ (l : List (Nat × ε)) (exported maxEpisodes : Int),
    exportLoop l exported maxEpisodes = l.take (maxEpisodes - exported).toNat
  | [], exported, maxEpisodes => by simp [exportLoop]
  | (idx, ep) :: rest, exported, maxEpisodes => by
    rw [exportLoop]
    by_cases h : exported ≥ maxEpisodes
    · rw [if_pos h]
      have : (maxEpisodes - exported).toNat = 0 := by omega
      simp [this]
    · rw [if_neg h, exportLoop_eq_take rest (exported + 1) maxEpisodes]
      have : (maxEpisodes - exported).toNat = (maxEpisodes - (exported + 1)).toNat + 1 := by
        omega
      simp [this]

/-- C5: for `max_episodes ≥ 0` the episode loop of `export_videos` exports
exactly the first `min (number of episodes) max_episodes` episodes, in
dataset order and with their enumeration indices — at most `max_episodes`
videos, fewer only when the split has fewer episodes. -/
theorem exportVideos_bounded_episode_loop {ε : Type} (episodes : List ε)
    (maxEpisodes : Int) (h : 0 ≤ maxEpisodes) :
    exportEpisodes episodes maxEpisodes = episodes.enum.take maxEpisodes.toNat ∧
    (exportEpisodes episodes maxEpisodes).length = min episodes.length maxEpisodes.toNat := by
  have h1 : exportEpisodes episodes maxEpisodes = episodes.enum.take maxEpisodes.toNat := by
    rw [exportEpisodes, exportLoop_eq_take]
    simp
  refine ⟨h1, ?_⟩
  rw [h1, List.length_take, List.enum_length]
  omega

/-- Witness for C5 at three episodes and a budget of two. -/
theorem exportVideos_bounded_episode_loop_witness :
    (0 : Int) ≤ 2 ∧
    (exportEpisodes ["a", "b", "c"] 2 = (["a", "b", "c"] : List String).enum.take (2 : Int).toNat ∧
     (exportEpisodes ["a", "b", "c"] 2).length = min (["a", "b", "c"] : List String).length (2 : Int).toNat) :=
  ⟨by decide, exportVideos_bounded_episode_loop ["a", "b", "c"] 2 (by decide)⟩

/-- C7: when the requested display key is not among a dataset's
observation keys, the selection behaves as follows on the image-like keys
(names containing `image` or `rgb` case-insensitively): every selected key
is image-like; a unique image-like key is chosen; an in-range 1-based
pre-selected choice picks that key; an absent or out-of-range choice
falls back (non-interactively) to the first image-like key; and with no
image-like key the dataset is skipped with nothing exported. -/
theorem exportVideos_image_key_selection {ε : Type} (obsKeys : List PyStr)
    (displayKey : PyStr) (preChoice : Option Int) (episodes : List ε) (maxEpisodes : Int)
    (hnot : displayKey ∉ obsKeys) :
    (∀ k, selectImageKey obsKeys preChoice = some k → k ∈ imageKeysOf obsKeys) ∧
    (∀ k, imageKeysOf obsKeys = [k] → selectImageKey obsKeys preChoice = some k) ∧
    (∀ c, preChoice = some c → 2 ≤ (imageKeysOf obsKeys).length →
      1 ≤ c → c ≤ ((imageKeysOf obsKeys).length : Int) →
      selectImageKey obsKeys preChoice = some ((imageKeysOf obsKeys).getD (c - 1).toNat [])) ∧
    (2 ≤ (imageKeysOf obsKeys).length →
      (preChoice = none ∨ ∀ c, preChoice = some c →
        ¬(1 ≤ c ∧ c ≤ ((imageKeysOf obsKeys).length : Int))) →
      selectImageKey obsKeys preChoice = some ((imageKeysOf obsKeys).getD 0 [])) ∧
    (imageKeysOf obsKeys = [] →
      selectImageKey obsKeys preChoice = none ∧
      exportDataset obsKeys displayKey preChoice episodes maxEpisodes = none) := by
  refine ⟨?_, ?_, ?_, ?_, ?_⟩
  · intro k hk
    simp only [selectImageKey] at hk
    have hmem : ∀ n, n < (imageKeysOf obsKeys).length →
        (imageKeysOf obsKeys).getD n [] ∈ imageKeysOf obsKeys := by
      intro n hn
      rw [List.getD_eq_getElem?_getD, List.getElem?_eq_getElem hn]
      exact List.getElem_mem hn
    by_cases he : (imageKeysOf obsKeys).isEmpty
    · simp [he] at hk
    · rw [if_neg (by simpa using he)] at hk
      have hlen : 1 ≤ (imageKeysOf obsKeys).length := by
        rcases Nat.eq_zero_or_pos (imageKeysOf obsKeys).length with h | h
        · exact absurd (List.isEmpty_iff_length_eq_zero.mpr h) (by simpa using he)
        · omega
      by_cases h1 : (imageKeysOf obsKeys).length = 1
      · rw [if_pos h1] at hk
        simp only [Option.some_inj] at hk
        subst hk
        exact hmem 0 (by omega)
      · rw [if_neg h1] at hk
        cases preChoice with
        | none =>
          simp only [Option.some_inj] at hk
          subst hk
          exact hmem 0 (by omega)
        | some c =>
          dsimp only [] at hk
          by_cases hc : 1 ≤ c ∧ c ≤ ((imageKeysOf obsKeys).length : Int)
          · rw [if_pos hc] at hk
            simp only [Option.some_inj] at hk
            subst hk
            exact hmem (c - 1).toNat (by omega)
          · rw [if_neg hc] at hk
            simp only [Option.some_inj] at hk
            subst hk
            exact hmem 0 (by omega)
  · intro k hk
    simp [selectImageKey, hk]
  · intro c hc hlen h1 h2
    subst hc
    simp only [selectImageKey]
    rw [if_neg (by simp only [List.isEmpty_iff_length_eq_zero]; omega)]
    rw [if_neg (by omega)]
    rw [if_pos ⟨h1, h2⟩]
  · intro hlen hcases
    simp only [selectImageKey]
    rw [if_neg (by simp only [List.isEmpty_iff_length_eq_zero]; omega)]
    rw [if_neg (by omega)]
    rcases hcases with hnone | hbad
    · rw [hnone]
    · match hpc : preChoice with
      | none => rfl
      | some c =>
        dsimp only []
        rw [if_neg (hbad c rfl)]
  · intro hempty
    have hsel : selectImageKey obsKeys preChoice = none := by
      simp [selectImageKey, hempty]
    refine ⟨hsel, ?_⟩
    rw [exportDataset, if_neg hnot, hsel]

/-- Witness for C7 with keys `state`, `image_front`, `wrist_rgb`, display
key `image` absent, and pre-selected choice 2. -/
theorem exportVideos_image_key_selection_witness :
    ("image".data ∉ ["state".data, "image_front".data, "wrist_rgb".data]) ∧
    ((∀ k, selectImageKey ["state".data, "image_front".data, "wrist_rgb".data] (some 2) =
        some k → k ∈ imageKeysOf ["state".data, "image_front".data, "wrist_rgb".data]) ∧
     (∀ k, imageKeysOf ["state".data, "image_front".data, "wrist_rgb".data] = [k] →
       selectImageKey ["state".data, "image_front".data, "wrist_rgb".data] (some 2) = some k) ∧
     (∀ c, (some 2 : Option Int) = some c →
       2 ≤ (imageKeysOf ["state".data, "image_front".data, "wrist_rgb".data]).length →
       1 ≤ c → c ≤ ((imageKeysOf ["state".data, "image_front".data, "wrist_rgb".data]).length : Int) →
       selectImageKey ["state".data, "image_front".data, "wrist_rgb".data] (some 2) =
         some ((imageKeysOf ["state".data, "image_front".data, "wrist_rgb".data]).getD (c - 1).toNat [])) ∧
     (2 ≤ (imageKeysOf ["state".data, "image_front".data, "wrist_rgb".data]).length →
       ((some 2 : Option Int) = none ∨ ∀ c, (some 2 : Option Int) = some c →
         ¬(1 ≤ c ∧ c ≤ ((imageKeysOf ["state".data, "image_front".data, "wrist_rgb".data]).length : Int))) →
       selectImageKey ["state".data, "image_front".data, "wrist_rgb".data] (some 2) =
         some ((imageKeysOf ["state".data, "image_front".data, "wrist_rgb".data]).getD 0 [])) ∧
     (imageKeysOf ["state".data, "image_front".data, "wrist_rgb".data] = [] →
       selectImageKey ["state".data, "image_front".data, "wrist_rgb".data] (some 2) = none ∧
       exportDataset ["state".data, "image_front".data, "wrist_rgb".data] "image".data
         (some 2) ([] : List Unit) 5 = none)) :=
  ⟨by decide,
   exportVideos_image_key_selection ["state".data, "image_front".data, "wrist_rgb".data]
     "image".data (some 2) ([] : List Unit) 5 (by decide)⟩

/-- The default dataset list of run.py (lines 10-12). -/
def DEFAULT_DATASETS : List PyStr :=
  ["dlr_sara_grid_clamp_converted_externally_to_rlds".data]

/-- Helper for `pySplitWs`: split on whitespace runs, accumulating the
current word reversed. -/
def pySplitWsAux : List Char → List Char → List PyStr
  | [], acc => if acc.isEmpty then [] else [acc.reverse]
  | c :: rest, acc =>
    if c.isWhitespace then
      if acc.isEmpty then pySplitWsAux rest [] else acc.reverse :: pySplitWsAux rest []
    else pySplitWsAux rest (c :: acc)

/-- Model of Python `s.split()` with no arguments: split on runs of
whitespace, producing no empty words. -/
def pySplitWs (s : PyStr) : List PyStr := pySplitWsAux s []

/-- Model of Python `s.replace(",", " ")`. -/
def pyReplaceCommaSpace (s : PyStr) : PyStr :=
  s.map (fun c => if c = ',' then ' ' else c)

/-- The token list `csv.replace(",", " ").split()` of run.py line 20. -/
def tokenizeCsv (s : PyStr) : List PyStr := pySplitWs (pyReplaceCommaSpace s)

/-- The de-duplication loop of `parse_dataset_args` (run.py lines 26-31):
append each name not yet seen, in order. -/
def dedupLoop : List PyStr → List PyStr → List PyStr → List PyStr
  | [], deduped, _ => deduped
  | name :: rest, deduped, seen =>
    if name ∈ seen then dedupLoop rest deduped seen
    else dedupLoop rest (deduped ++ [name]) (seen ++ [name])

/-- The names gathered from the three sources in order (run.py lines
16-22): the repeatable `--dataset` flags, the comma/space-separated
`--datasets` string, and the `DATASETS` environment variable, each skipped
when falsy. -/
def sourceTokens (argList : Option (List PyStr)) (csv env : Option PyStr) : List PyStr :=
  (match argList with
   | some l => if l.isEmpty then [] else l
   | none => []) ++
  (match csv with
   | some s => if s.isEmpty then [] else tokenizeCsv s
   | none => []) ++
  (match env with
   | some s => if s.isEmpty then [] else tokenizeCsv s
   | none => [])

/-- Translation of `parse_dataset_args` (run.py lines 15-32). -/
def parseDatasetArgs (argList : Option (List PyStr)) (csv env : Option PyStr) :
    List PyStr :=
  let datasets := sourceTokens argList csv env
  let datasets := if datasets.isEmpty then DEFAULT_DATASETS else datasets
  dedupLoop datasets [] []

/-- The specification-side description of first-occurrence
de-duplication: keep each name's first occurrence, dropping the later
ones. -/
def firstOccList : List PyStr → List PyStr
  | [] => []
  | x :: xs => x :: firstOccList (xs.filter (· ≠ x))
  termination_by l => l.length
  decreasing_by
    have h2 := List.length_filter_le (fun x_1 => decide (x_1 ≠ x)) xs
    simp only [List.length_cons]
    omega

theorem firstOccList_cons (x : PyStr) (xs : List PyStr) :
    firstOccList (x :: xs) = x :: firstOccList (xs.filter (· ≠ x)) := by
  rw [firstOccList.eq_def]

theorem firstOccList_subset : ∀ (l : List PyStr) (y : PyStr), y ∈ firstOccList l → y ∈ l
  | [], y, h => by simp [firstOccList] at h
  | x :: xs, y, h => by
    rw [firstOccList.eq_def] at h
    rcases List.mem_cons.mp h with h | h
    · simp [h]
    · have := firstOccList_subset (xs.filter (· ≠ x)) y h
      right
      exact List.mem_of_mem_filter this
  termination_by l => l.length
  decreasing_by
    have h2 := List.length_filter_le (fun x_1 => decide (x_1 ≠ x)) xs
    simp only [List.length_cons]
    omega

theorem firstOccList_nodup : ∀ (l : List PyStr), (firstOccList l).Nodup
  | [] => by simp [firstOccList]
  | x :: xs => by
    rw [firstOccList.eq_def]
    refine List.nodup_cons.mpr ⟨?_, firstOccList_nodup (xs.filter (· ≠ x))⟩
    intro hmem
    have := firstOccList_subset _ _ hmem
    have := List.of_mem_filter this
    simp at this
  termination_by l => l.length
  decreasing_by
    have h2 := List.length_filter_le (fun x_1 => decide (x_1 ≠ x)) xs
    simp only [List.length_cons]
    omega

theorem dedupLoop_eq_firstOcc : ∀ (l deduped seen : List PyStr),
    dedupLoop l deduped seen = deduped ++ firstOccList (l.filter (· ∉ seen))
  | [], deduped, seen => by
    rw [dedupLoop, firstOccList.eq_def]
    simp
  | x :: rest, deduped, seen => by
    rw [dedupLoop]
    by_cases hx : x ∈ seen
    · rw [if_pos hx, dedupLoop_eq_firstOcc rest deduped seen]
      have : (x :: rest).filter (· ∉ seen) = rest.filter (· ∉ seen) := by
        simp [List.filter_cons, hx]
      rw [this]
    · rw [if_neg hx, dedupLoop_eq_firstOcc rest (deduped ++ [x]) (seen ++ [x])]
      have h1 : (x :: rest).filter (· ∉ seen) = x :: rest.filter (· ∉ seen) := by
        simp [List.filter_cons, hx]
      have h2 : rest.filter (· ∉ seen ++ [x]) =
          (rest.filter (· ∉ seen)).filter (· ≠ x) := by
        rw [List.filter_filter]
        apply List.filter_congr
        intro a _
        by_cases ha : a = x
        · subst ha
          simp
        · by_cases hs : a ∈ seen <;> simp [ha, hs]
      rw [h1, firstOccList_cons, h2]
      simp

/-- C9: `parse_dataset_args` returns a duplicate-free list preserving
first-occurrence order across the `--dataset` flags, the `--datasets`
string and the `DATASETS` environment variable taken in that order; when
the three sources contribute no name it returns the non-empty default
list, so the result is never empty. -/
theorem parseDatasetArgs_dedup_default_nonempty
    (argList : Option (List PyStr)) (csv env : Option PyStr) :
    (parseDatasetArgs argList csv env).Nodup ∧
    (sourceTokens argList csv env ≠ [] →
      parseDatasetArgs argList csv env = firstOccList (sourceTokens argList csv env)) ∧
    (sourceTokens argList csv env = [] →
      parseDatasetArgs argList csv env = DEFAULT_DATASETS) ∧
    parseDatasetArgs argList csv env ≠ [] := by
  have hrun : ∀ (l : List PyStr), dedupLoop l [] [] = firstOccList l := by
    intro l
    rw [dedupLoop_eq_firstOcc l [] []]
    simp
  by_cases hempty : sourceTokens argList csv env = []
  · have hval : parseDatasetArgs argList csv env = DEFAULT_DATASETS := by
      rw [parseDatasetArgs]
      simp only [hempty, List.isEmpty_nil, if_pos]
      rw [hrun]
      simp [firstOccList, DEFAULT_DATASETS]
    refine ⟨by rw [hval]; decide, fun h => absurd hempty h, fun _ => hval, by rw [hval]; decide⟩
  · have hval : parseDatasetArgs argList csv env =
        firstOccList (sourceTokens argList csv env) := by
      rw [parseDatasetArgs]
      have : (sourceTokens argList csv env).isEmpty = false := by
        simpa using hempty
      simp only [this, Bool.false_eq_true, if_false]
      exact hrun _
    refine ⟨by rw [hval]; exact firstOccList_nodup _, fun _ => hval,
      fun h => absurd h hempty, ?_⟩
    rw [hval]
    obtain ⟨x, rest, hx⟩ := List.exists_cons_of_ne_nil hempty
    rw [hx, firstOccList]
    simp

/-- Witness for C9 with a repeated flag, an overlapping comma/space
string, and an empty environment variable. -/
theorem parseDatasetArgs_dedup_default_nonempty_witness :
    (parseDatasetArgs (some ["droid".data, "droid".data])
        (some "droid, lang_table".data) none).Nodup ∧
    (sourceTokens (some ["droid".data, "droid".data]) (some "droid, lang_table".data) none ≠ [] →
      parseDatasetArgs (some ["droid".data, "droid".data]) (some "droid, lang_table".data) none =
        firstOccList (sourceTokens (some ["droid".data, "droid".data])
          (some "droid, lang_table".data) none)) ∧
    (sourceTokens (some ["droid".data, "droid".data]) (some "droid, lang_table".data) none = [] →
      parseDatasetArgs (some ["droid".data, "droid".data]) (some "droid, lang_table".data) none =
        DEFAULT_DATASETS) ∧
    parseDatasetArgs (some ["droid".data, "droid".data]) (some "droid, lang_table".data) none ≠ [] :=
  parseDatasetArgs_dedup_default_nonempty (some ["droid".data, "droid".data])
    (some "droid, lang_table".data) none

/-- Python exception classes relevant to generate_video.py. -/
inductive PyErr where
  | valueError : PyErr
  | zeroDivisionError : PyErr
  | runtimeError : PyErr
  | fileNotFoundError : PyErr
  | attributeError : PyErr
  | typeError : PyErr
deriving DecidableEq

/-- Helper for `pySplitOn`: accumulate the current part reversed. -/
def pySplitOnAux (sep : Char) : List Char → List Char → List PyStr
  | [], acc => [acc.reverse]
  | c :: rest, acc =>
    if c = sep then acc.reverse :: pySplitOnAux sep rest []
    else pySplitOnAux sep rest (c :: acc)

/-- Model of Python `s.split(sep)` for a one-character separator: empty
parts are kept, and the empty string yields `[""]`. -/
def pySplitOn (s : PyStr) (sep : Char) : List PyStr := pySplitOnAux sep s []

/-- Translation of `_require_24_fps` (generate_video.py lines 44-55):
split on `/`, parse the two integer parts (any failure up to here raises
`ValueError`), reduce by the gcd — Python floor division raises
`ZeroDivisionError` when both parts are zero — and accept exactly the
reduced fraction `24/1`. -/
def require24fps (s : PyStr) : Except PyErr Unit :=
  match pySplitOn s '/' with
  | [a, b] =>
    match pyIntParse? a, pyIntParse? b with
    | some num, some den =>
      let g : Int := (Int.gcd num den : Int)
      if g = 0 then .error .zeroDivisionError
      else if num.fdiv g = 24 ∧ den.fdiv g = 1 then .ok () else .error .valueError
    | _, _ => .error .valueError
  | _ => .error .valueError

theorem pySplitOnAux_first (sep : Char) :
    ∀ (s acc : List Char), sep ∉ s →
    pySplitOnAux sep s acc = [acc.reverse ++ s]
  | [], acc, _ => by simp [pySplitOnAux]
  | c :: rest, acc, h => by
    rw [pySplitOnAux, if_neg (by simp at h; tauto)]
    rw [pySplitOnAux_first sep rest (c :: acc) (by simp at h; tauto)]
    simp

theorem pySplitOn_pair (a b : PyStr) (ha : '/' ∉ a) (hb : '/' ∉ b) :
    pySplitOn (a ++ '/' :: b) '/' = [a, b] := by
  rw [pySplitOn]
  have haux : ∀ (s acc : List Char), '/' ∉ s →
      pySplitOnAux '/' (s ++ '/' :: b) acc = (acc.reverse ++ s) :: [b] := by
    intro s
    induction s with
    | nil =>
      intro acc _
      simp only [List.nil_append, pySplitOnAux, if_pos rfl]
      rw [pySplitOnAux_first '/' b [] hb]
      simp
    | cons c rest ih =>
      intro acc h
      simp only [List.cons_append, pySplitOnAux, List.append_eq]
      rw [if_neg (by simp at h; tauto)]
      rw [ih (c :: acc) (by simp at h; tauto)]
      simp
  rw [haux a [] ha]
  simp

theorem pySplitOnAux_ne_nil (sep : Char) :
    ∀ (s acc : List Char), pySplitOnAux sep s acc ≠ []
  | [], acc => by simp [pySplitOnAux]
  | c :: rest, acc => by
    rw [pySplitOnAux]
    by_cases hc : c = sep
    · simp [hc]
    · rw [if_neg hc]
      exact pySplitOnAux_ne_nil sep rest (c :: acc)

/-- Joining parts with a separator, the inverse of `pySplitOn`. -/
def joinParts (sep : Char) : List PyStr → PyStr
  | [] => []
  | [p] => p
  | p :: rest => p ++ sep :: joinParts sep rest

theorem joinParts_cons (sep : Char) (p : PyStr) (rest : List PyStr) (h : rest ≠ []) :
    joinParts sep (p :: rest) = p ++ sep :: joinParts sep rest := by
  cases rest with
  | nil => exact absurd rfl h
  | cons q rest2 => rfl

theorem pySplitOnAux_join (sep : Char) :
    ∀ (s acc : List Char), joinParts sep (pySplitOnAux sep s acc) = acc.reverse ++ s
  | [], acc => by simp [pySplitOnAux, joinParts]
  | c :: rest, acc => by
    rw [pySplitOnAux]
    by_cases hc : c = sep
    · rw [if_pos hc]
      rw [joinParts_cons sep _ _ (pySplitOnAux_ne_nil sep rest [])]
      rw [pySplitOnAux_join sep rest []]
      simp [hc]
    · rw [if_neg hc]
      rw [pySplitOnAux_join sep rest (c :: acc)]
      simp

theorem pySplitOnAux_no_sep (sep : Char) :
    ∀ (s acc : List Char), sep ∉ acc →
    ∀ part ∈ pySplitOnAux sep s acc, sep ∉ part
  | [], acc, hacc => by
    simp only [pySplitOnAux, List.mem_singleton]
    intro part hp
    subst hp
    simpa using hacc
  | c :: rest, acc, hacc => by
    rw [pySplitOnAux]
    by_cases hc : c = sep
    · rw [if_pos hc]
      intro part hp
      rcases List.mem_cons.mp hp with h | h
      · subst h
        simpa using hacc
      · exact pySplitOnAux_no_sep sep rest [] (by simp) part h
    · rw [if_neg hc]
      exact pySplitOnAux_no_sep sep rest (c :: acc)
        (by simp [hacc]; intro h; exact hc h.symm)

theorem pySplitOn_pair_inv (s a b : PyStr) (h : pySplitOn s '/' = [a, b]) :
    s = a ++ '/' :: b ∧ '/' ∉ a ∧ '/' ∉ b := by
  have hjoin := pySplitOnAux_join '/' s []
  rw [pySplitOn] at h
  rw [h] at hjoin
  have hj2 : joinParts '/' [a, b] = a ++ '/' :: b := by
    rw [joinParts_cons '/' a [b] (by simp)]
    rfl
  rw [hj2] at hjoin
  have hns := pySplitOnAux_no_sep '/' s [] (by simp)
  rw [h] at hns
  exact ⟨by simpa using hjoin.symm, hns a (by simp), hns b (by simp)⟩

theorem pyDigitsGo_chars : ∀ (l : List Char) (acc n : Nat), pyDigitsGo l acc = some n →
    ∀ c ∈ l, c.isDigit ∨ c = '_'
  | [], _, _, _ => by simp
  | c :: rest, acc, n, h => by
    rw [pyDigitsGo.eq_def] at h
    dsimp only [] at h
    by_cases hd : c.isDigit
    · rw [if_pos hd] at h
      intro d hdm
      rcases List.mem_cons.mp hdm with hdm | hdm
      · exact Or.inl (hdm ▸ hd)
      · exact pyDigitsGo_chars rest _ n h d hdm
    · rw [if_neg hd] at h
      by_cases hu : c = '_'
      · rw [if_pos hu] at h
        cases rest with
        | nil => exact absurd h (by simp)
        | cons r rest2 =>
          dsimp only [] at h
          by_cases hr : r.isDigit
          · rw [if_pos hr] at h
            intro d hdm
            rcases List.mem_cons.mp hdm with hdm | hdm
            · exact Or.inr (hdm ▸ hu)
            · rcases List.mem_cons.mp hdm with hdm | hdm
              · exact Or.inl (hdm ▸ hr)
              · exact pyDigitsGo_chars rest2 _ n h d hdm
          · rw [if_neg hr] at h
            exact absurd h (by simp)
      · rw [if_neg hu] at h
        exact absurd h (by simp)

theorem pyIntDigits?_chars (l : List Char) (n : Nat) (h : pyIntDigits? l = some n) :
    ∀ c ∈ l, c.isDigit ∨ c = '_' := by
  cases l with
  | nil => simp
  | cons c rest =>
    rw [pyIntDigits?] at h
    by_cases hd : c.isDigit
    · rw [if_pos hd] at h
      exact pyDigitsGo_chars (c :: rest) 0 n h
    · rw [if_neg hd] at h
      exact absurd h (by simp)

theorem mem_strip_or_ws (t : PyStr) (c : Char) (hmem : c ∈ t) :
    c.isWhitespace ∨
    c ∈ ((t.dropWhile Char.isWhitespace).reverse.dropWhile Char.isWhitespace).reverse := by
  have h1 : c ∈ t.takeWhile Char.isWhitespace ∨ c ∈ t.dropWhile Char.isWhitespace := by
    rw [← List.mem_append, List.takeWhile_append_dropWhile]
    exact hmem
  rcases h1 with h1 | h1
  · exact Or.inl (List.mem_takeWhile_imp h1)
  · have h2 : c ∈ (t.dropWhile Char.isWhitespace).reverse := by simpa using h1
    have h3 : c ∈ (t.dropWhile Char.isWhitespace).reverse.takeWhile Char.isWhitespace ∨
        c ∈ (t.dropWhile Char.isWhitespace).reverse.dropWhile Char.isWhitespace := by
      rw [← List.mem_append, List.takeWhile_append_dropWhile]
      exact h2
    rcases h3 with h3 | h3
    · exact Or.inl (List.mem_takeWhile_imp h3)
    · exact Or.inr (by simpa using h3)

theorem pyIntParse?_chars (t : PyStr) (n : Int) (h : pyIntParse? t = some n) :
    ∀ c ∈ t, c.isWhitespace ∨ c = '+' ∨ c = '-' ∨ c.isDigit ∨ c = '_' := by
  intro c hmem
  rcases mem_strip_or_ws t c hmem with hws | hcore
  · exact Or.inl hws
  · simp only [pyIntParse?] at h
    revert h hcore
    generalize ((t.dropWhile Char.isWhitespace).reverse.dropWhile Char.isWhitespace).reverse = core
    intro h hcore
    have hget : ∀ (l : List Char) (f : Int → Int),
        (Option.map f (do
          let a ← pyIntDigits? l
          pure (a : Int))) = some n → ∃ m, pyIntDigits? l = some m := by
      intro l f hl
      cases hx : pyIntDigits? l with
      | none => rw [hx] at hl; simp at hl
      | some m => exact ⟨m, rfl⟩
    split at h
    · rename_i rest
      obtain ⟨m, hm⟩ := hget rest _ (by exact h)
      rcases List.mem_cons.mp hcore with hc | hc
      · exact Or.inr (Or.inl hc)
      · rcases pyIntDigits?_chars rest m hm c hc with hd | hd
        · exact Or.inr (Or.inr (Or.inr (Or.inl hd)))
        · exact Or.inr (Or.inr (Or.inr (Or.inr hd)))
    · rename_i rest
      obtain ⟨m, hm⟩ := hget rest _ (by exact h)
      rcases List.mem_cons.mp hcore with hc | hc
      · exact Or.inr (Or.inr (Or.inl hc))
      · rcases pyIntDigits?_chars rest m hm c hc with hd | hd
        · exact Or.inr (Or.inr (Or.inr (Or.inl hd)))
        · exact Or.inr (Or.inr (Or.inr (Or.inr hd)))
    · obtain ⟨m, hm⟩ := hget core _ (by exact h)
      rcases pyIntDigits?_chars core m hm c hcore with hd | hd
      · exact Or.inr (Or.inr (Or.inr (Or.inl hd)))
      · exact Or.inr (Or.inr (Or.inr (Or.inr hd)))

theorem pyIntParse?_no_slash (t : PyStr) (n : Int) (h : pyIntParse? t = some n) :
    '/' ∉ t := by
  intro hmem
  rcases pyIntParse?_chars t n h '/' hmem with hc | hc | hc | hc | hc <;> revert hc <;> decide

/-- Model of `os.path.splitext` for a plain filename (no directory
separators): the extension starts at the last dot, except that the
leading dots of the name never start an extension. -/
def pySplitExt (p : PyStr) : PyStr × PyStr :=
  let lead := p.takeWhile (· = '.')
  let rest := p.dropWhile (· = '.')
  if '.' ∈ rest then
    let rev := rest.reverse
    let afterRev := rev.takeWhile (· ≠ '.')
    let baseRev := (rev.dropWhile (· ≠ '.')).tail
    (lead ++ baseRev.reverse, '.' :: afterRev.reverse)
  else (p, [])

/-- Model of the Python slice `s[p:-e]` (start `p`, stop `len - e`). -/
def pySliceToNegEnd (s : PyStr) (p e : Nat) : PyStr :=
  if e = 0 then [] else (s.drop p).take (s.length - e - p)

/-- Model of Python `max(l, default=d)`. -/
def listMaxD (l : List Int) (d : Int) : Int :=
  match l with
  | [] => d
  | x :: xs => xs.foldl max x

/-- The numbers collected by the directory scan of `generate_video`
(generate_video.py lines 125-133): for every listing entry of the form
`{base}_generated-…{ext}`, the `int(...)` of the middle slice, skipping
entries whose middle does not parse. -/
def pyGeneratedNumbers (listing : List PyStr) (base ext : PyStr) : List Int :=
  listing.filterMap (fun filename =>
    if (base ++ "_generated-".data).isPrefixOf filename ∧ ext.isSuffixOf filename then
      pyIntParse? (pySliceToNegEnd filename (base ++ "_generated-".data).length ext.length)
    else none)

/-- The output number chosen by `generate_video` (generate_video.py line
135): one more than the maximum collected number, with `0` standing in
when no numbered file exists. -/
def nextGeneratedNumber (listing : List PyStr) (base ext : PyStr) : Int :=
  listMaxD (pyGeneratedNumbers listing base ext) 0 + 1

/-- Model of Python `f"{n:03d}"` for an arbitrary integer: zero-pad to
total width three, the sign column included. -/
def pad3Int (n : Int) : PyStr :=
  if n < 0 then
    '-' :: (List.replicate (2 - (natDigits n.natAbs).length) '0' ++ natDigits n.natAbs)
  else List.replicate (3 - (natDigits n.toNat).length) '0' ++ natDigits n.toNat

/-- Decimal parser for the duration strings ffprobe emits (optional sign,
digits with an optional fractional part; exponent forms do not occur in
ffprobe duration output). -/
def parseDecimal? (s : PyStr) : Option ℚ :=
  let t := (s.dropWhile Char.isWhitespace).reverse.dropWhile Char.isWhitespace |>.reverse
  let parseUnsigned : List Char → Option ℚ := fun u =>
    match pySplitOn u '.' with
    | [a] => if a ≠ [] ∧ a.all Char.isDigit then some ((digitsVal a : ℚ)) else none
    | [a, b] =>
      if (a ≠ [] ∨ b ≠ []) ∧ a.all Char.isDigit ∧ b.all Char.isDigit then
        some ((digitsVal a : ℚ) + (digitsVal b : ℚ) / (10 : ℚ) ^ b.length)
      else none
    | _ => none
  match t with
  | '+' :: rest => parseUnsigned rest
  | '-' :: rest => (parseUnsigned rest).map (fun q => -q)
  | rest => parseUnsigned rest

/-- The supported aspect-ratio table of generate_video.py lines 12-19, in
insertion order, with exact rational targets. -/
def supportedAspectRatios : List (PyStr × ℚ) :=
  [("16:9".data, 16 / 9), ("9:16".data, 9 / 16), ("4:3".data, 4 / 3),
   ("3:4".data, 3 / 4), ("1:1".data, 1), ("21:9".data, 21 / 9)]

/-- Translation of `_select_supported_aspect_ratio` (generate_video.py
lines 58-76), with rational arithmetic in place of binary floating point:
reject non-positive dimensions, pick the table entry closest to
`width/height` (first wins on ties, matching the strict `<` update), and
require the distance to be at most `0.01`. -/
def selectSupportedAspectRatio (width height : Int) : Except PyErr PyStr :=
  if width ≤ 0 ∨ height ≤ 0 then .error .valueError
  else
    let ratio : ℚ := (width : ℚ) / (height : ℚ)
    let best := supportedAspectRatios.foldl
      (fun acc kv =>
        if |ratio - kv.2| < acc.2 then (some kv.1, |ratio - kv.2|) else acc)
      ((none : Option PyStr), (1000000000 : ℚ))
    match best.1 with
    | none => .error .valueError
    | some key => if best.2 > 1 / 100 then .error .valueError else .ok key

/-- Translation of `_require_max_duration_seconds` (generate_video.py
lines 79-92): read `format.duration` from the metadata (absent, falsy or
unparsable values raise `ValueError`) and require it to be at most
`max_seconds + 1e-6`. -/
def requireMaxDurationSeconds (meta : JValue) (maxSeconds : ℚ) : Except PyErr Unit :=
  let durVal? : Option (Option JValue) :=
    match meta with
    | .obj fields =>
      match (jLookup fields "format".data).getD (.obj []) with
      | .obj f2 => some (jLookup f2 "duration".data)
      | _ => none
    | _ => some none
  match durVal? with
  | none => .error .attributeError
  | some durOpt =>
    match durOpt with
    | none => .error .valueError
    | some v =>
      if ¬ pyTruthy v then .error .valueError
      else
        match v with
        | .str s =>
          match parseDecimal? s with
          | none => .error .valueError
          | some q => if q > maxSeconds + 1 / 1000000 then .error .valueError else .ok ()
        | .num n =>
          if (n : ℚ) > maxSeconds + 1 / 1000000 then .error .valueError else .ok ()
        | .bool _ =>
          if (1 : ℚ) > maxSeconds + 1 / 1000000 then .error .valueError else .ok ()
        | _ => .error .typeError

/-- Environment of one `generate_video` run: whether the input video file
exists, the listing of the `generated/` directory, the ffprobe outcome
(parsed metadata or a failure), the input file size in bytes, and the
outcome of the remote inference call together with the local write. -/
structure GenEnv where
  videoIsFile : Bool
  listing : List PyStr
  ffprobe : Except PyStr JValue
  fileSize : Nat
  replicateResult : Except PyStr Unit

/-- The `avg_frame_rate` value `generate_video` probes: first stream of
`streams`, field `avg_frame_rate` (default the empty string). -/
def probedAvgFrameRate (meta : JValue) : Option JValue :=
  match jGetD? meta "streams".data (JValue.arr []) with
  | none => none
  | some streamsVal =>
    match jIndex? streamsVal 0 with
    | none => none
    | some stream => jGetD? stream "avg_frame_rate".data (JValue.str [])

/-- Translation of `generate_video` (generate_video.py lines 105-191):
check the input file, compute the next output name from the directory
listing, probe the video, enforce the frame-rate, aspect-ratio, duration
and file-size requirements in source order, run the remote model, and
return the output path.  Exceptions are values of `PyErr`. -/
def generateVideo (env : GenEnv) (videoDirPath datasetName videoName : PyStr) :
    Except PyErr PyStr :=
  if ¬ env.videoIsFile then .error .fileNotFoundError
  else
    let base := (pySplitExt videoName).1
    let ext0 := (pySplitExt videoName).2
    let ext := if ext0.isEmpty then ".mp4".data else ext0
    let nextNumber := nextGeneratedNumber env.listing base ext
    let outputFilename := base ++ "_generated-".data ++ pad3Int nextNumber ++ ext
    let outputPath :=
      pyJoin (pyJoin (pyJoin videoDirPath datasetName) "generated".data) outputFilename
    match env.ffprobe with
    | .error _ => .error .runtimeError
    | .ok meta =>
      match jGetD? meta "streams".data (JValue.arr []) with
      | none => .error .attributeError
      | some streamsVal =>
        if ¬ pyTruthy streamsVal then .error .runtimeError
        else
          match jIndex? streamsVal 0 with
          | none => .error .typeError
          | some stream =>
            match jGetD? stream "avg_frame_rate".data (JValue.str []) with
            | none => .error .attributeError
            | some avgVal =>
              match jGetD? stream "width".data (JValue.num 0),
                    jGetD? stream "height".data (JValue.num 0) with
              | some wVal, some hVal =>
                match jToInt? wVal, jToInt? hVal with
                | some w, some h =>
                  match avgVal with
                  | .str avg =>
                    match require24fps avg with
                    | .error e => .error e
                    | .ok () =>
                      match selectSupportedAspectRatio w h with
                      | .error e => .error e
                      | .ok _aspect =>
                        match requireMaxDurationSeconds meta 5 with
                        | .error e => .error e
                        | .ok () =>
                          if env.fileSize > 1048576 then .error .valueError
                          else
                            match env.replicateResult with
                            | .error _ => .error .runtimeError
                            | .ok () => .ok outputPath
                  | _ => .error .attributeError
                | _, _ => .error .valueError
              | _, _ => .error .attributeError

/-- Rendering of a caught exception in the `[ERROR] {e}` line. -/
def errMsg : PyErr → PyStr
  | .valueError => "ValueError".data
  | .zeroDivisionError => "ZeroDivisionError".data
  | .runtimeError => "RuntimeError".data
  | .fileNotFoundError => "FileNotFoundError".data
  | .attributeError => "AttributeError".data
  | .typeError => "TypeError".data

/-- Translation of the `generate_video` subcommand wrapper
(run.py lines 106-119): on success print the success line and return 0,
on any exception print the error line and return 1. -/
def subcommandGenerate (env : GenEnv) (dataset videoName : PyStr) : Int × List PyStr :=
  match generateVideo env "/videos".data dataset videoName with
  | .ok p => (0, ["[SUCCESS] Generated video saved to: ".data ++ p])
  | .error e => (1, ["[ERROR] ".data ++ errMsg e])

theorem pySlice_of_decomp (pfx mid e : PyStr) (hne : e ≠ []) :
    pySliceToNegEnd (pfx ++ mid ++ e) pfx.length e.length = mid := by
  rw [pySliceToNegEnd, if_neg (by simpa using hne)]
  have h1 : (pfx ++ mid ++ e).drop pfx.length = mid ++ e := by
    rw [List.append_assoc, List.drop_left]
  rw [h1]
  have h2 : (pfx ++ mid ++ e).length - e.length - pfx.length = mid.length := by
    simp only [List.length_append]
    omega
  rw [h2, List.take_left]

theorem decomp_of_pySlice (f pfx e : PyStr) (N : Int) (hne : e ≠ [])
    (hp : pfx.isPrefixOf f) (hs : e.isSuffixOf f)
    (hparse : pyIntParse? (pySliceToNegEnd f pfx.length e.length) = some N) :
    ∃ mid, f = pfx ++ mid ++ e ∧ pyIntParse? mid = some N := by
  obtain ⟨rest, hrest⟩ := List.isPrefixOf_iff_prefix.mp hp
  obtain ⟨front, hfront⟩ := List.isSuffixOf_iff_suffix.mp hs
  have hfl : f.length = pfx.length + rest.length := by
    have := congrArg List.length hrest
    simp [List.length_append] at this
    omega
  have hfl2 : f.length = front.length + e.length := by
    have := congrArg List.length hfront
    simp [List.length_append] at this
    omega
  by_cases hlen : e.length ≤ rest.length
  · set m := rest.length - e.length with hm
    have hdrop : rest.drop m = e := by
      have h1 : f.drop (m + pfx.length) = rest.drop m := by
        rw [← hrest, show m + pfx.length = pfx.length + m from by omega,
          ← List.drop_drop, List.drop_left]
      have h2 : f.drop (m + pfx.length) = e := by
        rw [← hfront]
        have h3 : m + pfx.length = front.length := by omega
        rw [h3, List.drop_left]
      rw [← h1, h2]
    have hmid : rest = rest.take m ++ e := by
      conv_lhs => rw [← List.take_append_drop m rest]
      rw [hdrop]
    have hf : f = pfx ++ rest.take m ++ e := by
      rw [← hrest, List.append_assoc, ← hmid]
    rw [hf, pySlice_of_decomp pfx (rest.take m) e hne] at hparse
    exact ⟨rest.take m, hf, hparse⟩
  · have hz : f.length - e.length - pfx.length = 0 := by omega
    rw [pySliceToNegEnd, if_neg (by simpa using hne), hz, List.take_zero] at hparse
    exact absurd hparse (by simp [pyIntParse?, pyIntDigits?])

theorem foldl_max_mem : ∀ (xs : List Int) (x : Int), xs.foldl max x ∈ x :: xs
  | [], x => by simp
  | y :: ys, x => by
    rw [List.foldl_cons]
    have hmem := foldl_max_mem ys (max x y)
    rcases List.mem_cons.mp hmem with h | h
    · rw [h]
      rcases max_choice x y with hm | hm <;> rw [hm] <;> simp
    · simp [h]

theorem le_foldl_max : ∀ (xs : List Int) (x : Int),
    x ≤ xs.foldl max x ∧ ∀ N ∈ xs, N ≤ xs.foldl max x
  | [], x => by simp
  | y :: ys, x => by
    rw [List.foldl_cons]
    obtain ⟨h1, h2⟩ := le_foldl_max ys (max x y)
    refine ⟨le_trans (le_max_left x y) h1, ?_⟩
    intro N hN
    rcases List.mem_cons.mp hN with h | h
    · exact le_trans (h ▸ le_max_right x y) h1
    · exact h2 N h

/-- C6: `generate_video` chooses its output number as the next sequential
index of the numbered files in the `generated/` directory: the collected
numbers are exactly the parsed integers of the middle slice of listing
entries of the shape `{base}_generated-{mid}{ext}` (entries whose middle
does not parse are skipped); the chosen number exceeds every collected
number, is one more than a collected number when any exists, and is `1`
(formatted `001`) when none exists; and a successful `generate_video` run
embeds exactly that number in its output path. -/
theorem generateVideo_next_sequential_number (listing : List PyStr) (base ext : PyStr)
    (hne : ext ≠ []) :
    (∀ N ∈ pyGeneratedNumbers listing base ext,
      ∃ f ∈ listing, ∃ mid, f = (base ++ "_generated-".data) ++ mid ++ ext ∧
        pyIntParse? mid = some N) ∧
    (∀ f ∈ listing, ∀ mid N, f = (base ++ "_generated-".data) ++ mid ++ ext →
      pyIntParse? mid = some N → N ∈ pyGeneratedNumbers listing base ext) ∧
    (pyGeneratedNumbers listing base ext = [] →
      nextGeneratedNumber listing base ext = 1 ∧ pad3Int 1 = "001".data) ∧
    (∀ N ∈ pyGeneratedNumbers listing base ext, N < nextGeneratedNumber listing base ext) ∧
    (pyGeneratedNumbers listing base ext ≠ [] →
      nextGeneratedNumber listing base ext - 1 ∈ pyGeneratedNumbers listing base ext) ∧
    (∀ (env : GenEnv) (dirPath dsName videoName p : PyStr),
      generateVideo env dirPath dsName videoName = .ok p →
      p = pyJoin (pyJoin (pyJoin dirPath dsName) "generated".data)
        ((pySplitExt videoName).1 ++ "_generated-".data ++
          pad3Int (nextGeneratedNumber env.listing (pySplitExt videoName).1
            (if ((pySplitExt videoName).2).isEmpty then ".mp4".data
             else (pySplitExt videoName).2)) ++
          (if ((pySplitExt videoName).2).isEmpty then ".mp4".data
           else (pySplitExt videoName).2))) := by
  refine ⟨?_, ?_, ?_, ?_, ?_, ?_⟩
  · intro N hN
    rw [pyGeneratedNumbers, List.mem_filterMap] at hN
    obtain ⟨f, hf, hfa⟩ := hN
    refine ⟨f, hf, ?_⟩
    split at hfa
    · rename_i hcond
      obtain ⟨mid, hmid, hparse⟩ :=
        decomp_of_pySlice f (base ++ "_generated-".data) ext N hne hcond.1 hcond.2 hfa
      exact ⟨mid, hmid, hparse⟩
    · exact absurd hfa (by simp)
  · intro f hfmem mid N hf hparse
    rw [pyGeneratedNumbers, List.mem_filterMap]
    refine ⟨f, hfmem, ?_⟩
    have hpre : (base ++ "_generated-".data).isPrefixOf f := by
      rw [List.isPrefixOf_iff_prefix, hf]
      exact ⟨mid ++ ext, by simp⟩
    have hsuf : ext.isSuffixOf f := by
      rw [List.isSuffixOf_iff_suffix, hf]
      exact ⟨(base ++ "_generated-".data) ++ mid, by simp⟩
    rw [if_pos ⟨hpre, hsuf⟩, hf, pySlice_of_decomp _ _ _ hne]
    exact hparse
  · intro h
    refine ⟨?_, by decide⟩
    rw [nextGeneratedNumber, h]
    decide
  · intro N hN
    rw [nextGeneratedNumber]
    have hle : N ≤ listMaxD (pyGeneratedNumbers listing base ext) 0 := by
      cases hl : pyGeneratedNumbers listing base ext with
      | nil => rw [hl] at hN; cases hN
      | cons x xs =>
        rw [hl] at hN
        simp only [listMaxD]
        rcases List.mem_cons.mp hN with h | h
        · exact h ▸ (le_foldl_max xs x).1
        · exact (le_foldl_max xs x).2 N h
    omega
  · intro hne2
    cases hl : pyGeneratedNumbers listing base ext with
    | nil => exact absurd hl hne2
    | cons x xs =>
      rw [nextGeneratedNumber, hl]
      simp only [listMaxD, add_sub_cancel_right]
      exact foldl_max_mem xs x
  · intro env dirPath dsName videoName p hok
    simp only [generateVideo] at hok
    repeat (split at hok <;> try (cases hok))
    rfl

/-- Directory listing used to instantiate the C6 theorem. -/
def wGenListing : List PyStr :=
  ["clip_generated-042.mp4".data, "clip_generated-007.mp4".data,
   "notes.txt".data, "clip_generated-0x9.mp4".data]

theorem generateVideo_next_sequential_number_witness :
    (".mp4".data : PyStr) ≠ [] ∧
    ((∀ N ∈ pyGeneratedNumbers wGenListing "clip".data ".mp4".data,
      ∃ f ∈ wGenListing, ∃ mid,
        f = ("clip".data ++ "_generated-".data) ++ mid ++ ".mp4".data ∧
        pyIntParse? mid = some N) ∧
    (∀ f ∈ wGenListing, ∀ mid N,
      f = ("clip".data ++ "_generated-".data) ++ mid ++ ".mp4".data →
      pyIntParse? mid = some N → N ∈ pyGeneratedNumbers wGenListing "clip".data ".mp4".data) ∧
    (pyGeneratedNumbers wGenListing "clip".data ".mp4".data = [] →
      nextGeneratedNumber wGenListing "clip".data ".mp4".data = 1 ∧ pad3Int 1 = "001".data) ∧
    (∀ N ∈ pyGeneratedNumbers wGenListing "clip".data ".mp4".data,
      N < nextGeneratedNumber wGenListing "clip".data ".mp4".data) ∧
    (pyGeneratedNumbers wGenListing "clip".data ".mp4".data ≠ [] →
      nextGeneratedNumber wGenListing "clip".data ".mp4".data - 1 ∈
        pyGeneratedNumbers wGenListing "clip".data ".mp4".data) ∧
    (∀ (env : GenEnv) (dirPath dsName videoName p : PyStr),
      generateVideo env dirPath dsName videoName = .ok p →
      p = pyJoin (pyJoin (pyJoin dirPath dsName) "generated".data)
        ((pySplitExt videoName).1 ++ "_generated-".data ++
          pad3Int (nextGeneratedNumber env.listing (pySplitExt videoName).1
            (if ((pySplitExt videoName).2).isEmpty then ".mp4".data
             else (pySplitExt videoName).2)) ++
          (if ((pySplitExt videoName).2).isEmpty then ".mp4".data
           else (pySplitExt videoName).2)))) :=
  ⟨by decide,
   generateVideo_next_sequential_number wGenListing "clip".data ".mp4".data (by decide)⟩

/-- C10 (amended): `_require_24_fps` accepts exactly the strings of the
form `num/den` whose integer parts are `24*k/k` for a positive `k` (the
fraction reduced by the gcd is exactly `24/1`); a string with no such
two-part integer decomposition raises `ValueError`; for a decomposed
string the `ZeroDivisionError` outcome happens exactly when both parts
are zero (the claim's "any string not of that form raises ValueError"
fails there), and every decomposed string whose parts are not both zero
is either accepted or raises exactly `ValueError`; and a successful
`generate_video` run probed a frame rate the check accepts, so no
non-24-fps video is forwarded. -/
theorem require24fps_accepts_iff_reduced_24_over_1 (s : PyStr) :
    (require24fps s = .ok () ↔
      ∃ a b k, s = a ++ '/' :: b ∧ (0 : Int) < k ∧
        pyIntParse? a = some (24 * k) ∧ pyIntParse? b = some k) ∧
    ((¬ ∃ a b num den, pySplitOn s '/' = [a, b] ∧
        pyIntParse? a = some num ∧ pyIntParse? b = some den) →
      require24fps s = .error .valueError) ∧
    (∀ a b num den, pySplitOn s '/' = [a, b] →
      pyIntParse? a = some num → pyIntParse? b = some den →
      (require24fps s = .error .zeroDivisionError ↔ num = 0 ∧ den = 0)) ∧
    (∀ a b num den, pySplitOn s '/' = [a, b] →
      pyIntParse? a = some num → pyIntParse? b = some den →
      ¬(num = 0 ∧ den = 0) →
      require24fps s = .ok () ∨ require24fps s = .error .valueError) ∧
    (∀ (env : GenEnv) (dirPath dsName videoName p : PyStr),
      generateVideo env dirPath dsName videoName = .ok p →
      ∃ meta avg, env.ffprobe = .ok meta ∧
        probedAvgFrameRate meta = some (JValue.str avg) ∧
        require24fps avg = .ok ()) := by
  refine ⟨⟨?_, ?_⟩, ?_, ?_, ?_, ?_⟩
  · intro h
    simp only [require24fps] at h
    split at h <;> try (cases h)
    rename_i a b heq
    split at h <;> try (cases h)
    rename_i num den hna hnb
    split at h <;> try (cases h)
    rename_i hg
    split at h <;> try (cases h)
    rename_i hcond
    obtain ⟨hfn, hfd⟩ := hcond
    have hsab := pySplitOn_pair_inv s a b heq
    have hdvd1 : ((Int.gcd num den : Int)) ∣ num := Int.gcd_dvd_left
    have hdvd2 : ((Int.gcd num den : Int)) ∣ den := Int.gcd_dvd_right
    have hgpos : (0 : Int) < (Int.gcd num den : Int) :=
      lt_of_le_of_ne (Int.natCast_nonneg _) (Ne.symm hg)
    have hnum : num = 24 * (Int.gcd num den : Int) := by
      rw [Int.fdiv_eq_ediv_of_dvd hdvd1] at hfn
      exact (Int.eq_mul_of_ediv_eq_right hdvd1 hfn).trans (mul_comm _ _)
    have hden : den = (Int.gcd num den : Int) := by
      rw [Int.fdiv_eq_ediv_of_dvd hdvd2] at hfd
      have := Int.eq_mul_of_ediv_eq_right hdvd2 hfd
      simpa using this
    exact ⟨a, b, (Int.gcd num den : Int), hsab.1, hgpos,
      by rw [← hnum]; exact hna, by rw [← hden]; exact hnb⟩
  · rintro ⟨a, b, k, hs, hk, hna, hnb⟩
    have hnsa : '/' ∉ a := pyIntParse?_no_slash a _ hna
    have hnsb : '/' ∉ b := pyIntParse?_no_slash b _ hnb
    have hsplit : pySplitOn s '/' = [a, b] := by
      rw [hs]; exact pySplitOn_pair a b hnsa hnsb
    have hk0 : k ≠ 0 := ne_of_gt hk
    have hgcd : (Int.gcd (24 * k) k : Int) = k := by
      have h1 : Int.gcd (24 * k) k = k.natAbs := by
        rw [Int.gcd, Int.natAbs_mul]
        exact Nat.gcd_eq_right ⟨(24 : Int).natAbs, Nat.mul_comm _ _⟩
      rw [h1]
      exact Int.natAbs_of_nonneg (le_of_lt hk)
    simp only [require24fps, hsplit, hna, hnb, hgcd]
    rw [if_neg hk0, if_pos ⟨Int.mul_fdiv_cancel 24 hk0, Int.fdiv_self hk0⟩]
  · intro hnone
    simp only [require24fps]
    split
    · rename_i a b heq
      split
      · rename_i num den hna hnb
        exact absurd ⟨a, b, num, den, heq, hna, hnb⟩ hnone
      · rfl
    · rfl
  · intro a b num den heq hna hnb
    simp only [require24fps, heq, hna, hnb]
    constructor
    · intro h
      split at h
      · rename_i hg
        have : Int.gcd num den = 0 := by exact_mod_cast hg
        exact Int.gcd_eq_zero_iff.mp this
      · split at h <;> simp at h
    · rintro ⟨h0, h1⟩
      subst h0; subst h1
      have hg : ((Int.gcd (0 : Int) (0 : Int) : Nat) : Int) = 0 := by simp [Int.gcd]
      rw [if_pos hg]
  · intro a b num den heq hna hnb hnz
    have hg : ¬ ((Int.gcd num den : Int) = 0) := by
      intro h0
      exact hnz (Int.gcd_eq_zero_iff.mp (by exact_mod_cast h0))
    simp only [require24fps, heq, hna, hnb]
    rw [if_neg hg]
    by_cases hc : num.fdiv (Int.gcd num den : Int) = 24 ∧
        den.fdiv (Int.gcd num den : Int) = 1
    · exact Or.inl (if_pos hc)
    · exact Or.inr (if_neg hc)
  · intro env dirPath dsName videoName p hok
    simp only [generateVideo] at hok
    split at hok <;> try (cases hok)
    split at hok <;> try (cases hok)
    rename_i meta hmeta
    split at hok <;> try (cases hok)
    rename_i streamsVal hstreams
    split at hok <;> try (cases hok)
    split at hok <;> try (cases hok)
    rename_i stream hstream
    split at hok <;> try (cases hok)
    rename_i avgVal havgVal
    split at hok <;> try (cases hok)
    rename_i wVal hVal hwEq hhEq
    split at hok <;> try (cases hok)
    rename_i w h hwI hhI
    split at hok <;> try (cases hok)
    rename_i avg
    split at hok <;> try (cases hok)
    rename_i hfps
    split at hok <;> try (cases hok)
    split at hok <;> try (cases hok)
    split at hok <;> try (cases hok)
    split at hok <;> try (cases hok)
    refine ⟨meta, avg, hmeta, ?_, hfps⟩
    simp only [probedAvgFrameRate, hstreams, hstream, havgVal]

/-- C10 counterexample: the input `0/0` is of the two-integer form but its
reduced fraction does not exist — Python's floor division by the zero gcd
raises `ZeroDivisionError`, not the `ValueError` the claim promises for
every rejected string. -/
theorem require24fps_zero_over_zero_counterexample :
    require24fps "0/0".data = .error .zeroDivisionError ∧
    require24fps "0/0".data ≠ .error .valueError ∧
    pyIntParse? "0".data = some 0 ∧
    pySplitOn "0/0".data '/' = ["0".data, "0".data] := by
  have hsplit : pySplitOn "0/0".data '/' = ["0".data, "0".data] := by decide
  have hparse : pyIntParse? "0".data = some 0 := by decide
  have heval : require24fps "0/0".data = .error .zeroDivisionError := by
    simp only [require24fps, hsplit, hparse]
    have hg : ((Int.gcd (0 : Int) (0 : Int) : Nat) : Int) = 0 := by simp [Int.gcd]
    rw [if_pos hg]
  exact ⟨heval, by rw [heval]; simp, hparse, hsplit⟩

/-- C8: the `generate` subcommand wrapper catches every exception of the
underlying operation and recovers nothing: when `generate_video` raises,
the wrapper prints the caught exception in an `[ERROR]` line and returns
exit status 1; when the operation completes, it prints the success line
and returns 0. -/
theorem subcommandGenerate_returns_1_on_exception_0_on_success
    (env : GenEnv) (dataset videoName : PyStr) :
    (∃ p, generateVideo env "/videos".data dataset videoName = .ok p ∧
      subcommandGenerate env dataset videoName =
        (0, ["[SUCCESS] Generated video saved to: ".data ++ p])) ∨
    (∃ e, generateVideo env "/videos".data dataset videoName = .error e ∧
      subcommandGenerate env dataset videoName =
        (1, ["[ERROR] ".data ++ errMsg e])) := by
  cases hg : generateVideo env "/videos".data dataset videoName with
  | ok p => exact Or.inl ⟨p, rfl, by rw [subcommandGenerate, hg]⟩
  | error e => exact Or.inr ⟨e, rfl, by rw [subcommandGenerate, hg]⟩

end Tool